import Mathlib

/-
  Verification development for the stego-cli document model and build engine.

  Shallow embedding of the core parsing and assembly functions:
  the comment-appendix parser (markers, thread grammar, meta64 payload
  validation), the header-block parser, filename ordering and duplicate
  detection, and the grouped-compilation (manuscript assembly) pass.

  Strings are modelled as Lean Strings (lists of characters); the two
  JavaScript runtime library operations that the comment metadata decoder
  delegates to (base64url decoding via Buffer, and JSON.parse) are taken
  as function parameters, so every theorem quantifies over their behavior;
  concrete instantiations are supplied where a theorem is evaluated.
-/

namespace Stego

/-- Whitespace test used for every place the source uses a regex whitespace
class or String.prototype.trim. -/
def isWs (c : Char) : Bool := c.isWhitespace

/-- Trim of a character list: drop leading and trailing whitespace. -/
def trimChars (cs : List Char) : List Char :=
  ((cs.dropWhile isWs).reverse.dropWhile isWs).reverse

/-- Embedding of JavaScript String.prototype.trim. -/
def trimStr (s : String) : String := String.mk (trimChars s.data)

/-- Splitting on the regex of an optional carriage return followed by a
newline, accumulator-based. -/
def splitLinesAux : List Char → List Char → List String
  | acc, [] => [String.mk acc.reverse]
  | acc, '\r' :: '\n' :: rest => String.mk acc.reverse :: splitLinesAux [] rest
  | acc, '\n' :: rest => String.mk acc.reverse :: splitLinesAux [] rest
  | acc, c :: rest => splitLinesAux (c :: acc) rest

/-- Embedding of body.split on the optional-carriage-return newline regex. -/
def splitLines (s : String) : List String := splitLinesAux [] s.data

/-- Join a list of strings with a separator, as Array.prototype.join. -/
def joinWith (sep : String) : List String → String
  | [] => ""
  | [x] => x
  | x :: y :: tl => x ++ sep ++ joinWith sep (y :: tl)

/-- Test whether a string contains a carriage return followed by a newline,
as in the line-ending detection of the appendix parser. -/
def hasCRLF : List Char → Bool
  | '\r' :: '\n' :: _ => true
  | _ :: rest => hasCRLF rest
  | [] => false

/-- An inspection issue, as in the Issue interface of the source. -/
structure Issue where
  level : String
  category : String
  message : String
  file : Option String
  line : Option Nat
deriving DecidableEq, Repr

/-- Embedding of makeIssue; the source defaults file and line to null. -/
def makeIssue (level category message : String)
    (file : Option String) (line : Option Nat) : Issue :=
  ⟨level, category, message, file, line⟩

/-- A parsed comment thread, as in the ParsedCommentThread interface. -/
structure ParsedCommentThread where
  id : String
  resolved : Bool
  thread : List String
deriving DecidableEq, Repr

/-- JSON values, the possible results of the JSON.parse call inside the
comment metadata decoder. -/
inductive JsonValue where
  | jnull
  | jbool (b : Bool)
  | jnum (n : Int)
  | jstr (s : String)
  | jarr (elems : List JsonValue)
  | jobj (fields : List (String × JsonValue))

/-- Embedding of isPlainObject: an object that is neither null nor an
array. -/
def isPlainObject : JsonValue → Bool
  | .jobj _ => true
  | _ => false

/-- Field lookup on a parsed JSON object, as JavaScript property access
on a parsed object (object keys are unique, first match). -/
def jsonField (fields : List (String × JsonValue)) (key : String) :
    Option JsonValue :=
  (fields.find? (fun kv => kv.1 == key)).map (fun kv => kv.2)

/-- ASCII lowercasing, as String.prototype.toLowerCase on the status
strings that occur here. -/
def lowerStr (s : String) : String := String.mk (s.data.map Char.toLower)

/-- Embedding of decodeCommentMeta64.  The base64url decoding step and the
JSON.parse step are supplied as functions returning none on failure, which
the source handles in try/catch blocks.  Returns the resolved flag of the
decoded metadata (none when the source returns undefined) together with
the issues the call pushes. -/
def decodeCommentMeta64 (b64decode : String → Option String)
    (jsonParse : String → Option JsonValue)
    (encoded commentId relativePath : String) (lineNumber : Nat) :
    Option Bool × List Issue :=
  match b64decode encoded with
  | none =>
    (none, [makeIssue "error" "comments"
      ("Invalid meta64 payload for comment " ++ commentId ++
        "; expected base64url-encoded JSON.")
      (some relativePath) (some lineNumber)])
  | some rawJson =>
    match jsonParse rawJson with
    | none =>
      (none, [makeIssue "error" "comments"
        ("Invalid meta64 JSON for comment " ++ commentId ++ ".")
        (some relativePath) (some lineNumber)])
    | some parsed =>
      if !(isPlainObject parsed) then
        (none, [makeIssue "error" "comments"
          ("Invalid meta64 object for comment " ++ commentId ++ ".")
          (some relativePath) (some lineNumber)])
      else
        let fields := match parsed with
          | .jobj fs => fs
          | _ => []
        let allowedKeys := ["status", "anchor", "paragraph_index",
          "signature", "excerpt"]
        match fields.find? (fun kv => !(allowedKeys.contains kv.1)) with
        | some kv =>
          (none, [makeIssue "error" "comments"
            ("meta64 for comment " ++ commentId ++
              " contains unsupported key '" ++ kv.1 ++ "'.")
            (some relativePath) (some lineNumber)])
        | none =>
          let status := match jsonField fields "status" with
            | some (.jstr s) => lowerStr (trimStr s)
            | _ => ""
          if status ≠ "open" ∧ status ≠ "resolved" then
            (none, [makeIssue "error" "comments"
              ("meta64 for comment " ++ commentId ++
                " must include status 'open' or 'resolved'.")
              (some relativePath) (some lineNumber)])
          else
            (some (status == "resolved"), [])

/-- Embedding of the heading regex of the appendix grammar: three hash
marks, at least one whitespace, the literal CMT-, exactly four digits,
then only whitespace.  Returns the captured identifier. -/
def matchCmtHeading (t : String) : Option String :=
  match t.data with
  | '#' :: '#' :: '#' :: c :: rest =>
    if isWs c then
      match rest.dropWhile isWs with
      | 'C' :: 'M' :: 'T' :: '-' :: d1 :: d2 :: d3 :: d4 :: rest2 =>
        if d1.isDigit ∧ d2.isDigit ∧ d3.isDigit ∧ d4.isDigit ∧
            rest2.all isWs then
          some (String.mk ['C', 'M', 'T', '-', d1, d2, d3, d4])
        else none
      | _ => none
    else none
  | _ => none

/-- Boolean form of the heading test used when collecting a thread's rows. -/
def isCmtHeading (t : String) : Bool := (matchCmtHeading t).isSome

/-- Embedding of the metadata-row regex: a comment opener, optional
whitespace, the literal meta64 marker and colon, optional whitespace, one
nonempty run of non-whitespace (the payload), optional whitespace, the
comment closer, optional trailing whitespace.  Returns the payload. -/
def matchMeta64Row (t : String) : Option String :=
  match t.data with
  | '<' :: '!' :: '-' :: '-' :: rest =>
    match rest.dropWhile isWs with
    | 'm' :: 'e' :: 't' :: 'a' :: '6' :: '4' :: ':' :: rest2 =>
      let rest3 := rest2.dropWhile isWs
      match rest3.reverse.dropWhile isWs with
      | '>' :: '-' :: '-' :: revTail =>
        let tokRev := revTail.dropWhile isWs
        if tokRev ≠ [] ∧ tokRev.all (fun c => !(isWs c)) then
          some (String.mk tokRev.reverse)
        else none
      | _ => none
    | _ => none
  | _ => none

/-- Embedding of extractQuotedLine: optional leading whitespace, a
greater-than sign, one optional whitespace, the remainder. -/
def extractQuotedLine (raw : String) : Option String :=
  match raw.data.dropWhile isWs with
  | '>' :: rest =>
    match rest with
    | c :: rest2 => if isWs c then some (String.mk rest2) else some (String.mk rest)
    | [] => some ""
  | _ => none

/-- Lazy scan for the pipe separator of a thread header: the timestamp
group grows one character at a time and at each size the scan skips
whitespace and looks for the pipe, matching the lazy group followed by
optional whitespace and a pipe in the header regex.  The accumulator
holds the reversed group so far and is nonempty at every call. -/
def splitAtLazyPipe (acc : List Char) : List Char → Option (List Char × List Char)
  | [] => none
  | c :: cs2 =>
    match (c :: cs2).dropWhile isWs with
    | '|' :: rest2 => some (acc.reverse, rest2)
    | _ => splitAtLazyPipe (c :: acc) cs2

/-- Embedding of parseThreadHeader: the trimmed value must be an
underscore, a lazily-matched timestamp, optional whitespace, a pipe,
optional whitespace, an author, an underscore, optional trailing
whitespace; both captures are trimmed and must be nonempty. -/
def parseThreadHeader (value : String) : Option (String × String) :=
  match trimChars value.data with
  | '_' :: c :: rest =>
    match splitAtLazyPipe [c] rest with
    | none => none
    | some (g1, rest2) =>
      match rest2.reverse.dropWhile isWs with
      | '_' :: bodyRev =>
        let timestamp := String.mk (trimChars g1)
        let author := String.mk (trimChars bodyRev.reverse)
        if timestamp = "" ∨ author = "" then none else some (timestamp, author)
      | _ => none
  | _ => none

/-- Drop trailing lines whose trim is empty, as the message and kept-line
popping loops of the source. -/
def popTrailingBlanks (xs : List String) : List String :=
  (xs.reverse.dropWhile (fun l => trimStr l == "")).reverse

/-- Embedding of the separator-skipping loop between a thread header and
its message lines: skip blank rows; at the first nonblank row, consume it
when it is a blockquote whose quoted content is blank, then stop. -/
def skipSeparatorRows : List (String × Nat) → List (String × Nat)
  | [] => []
  | r :: rest =>
    if trimStr r.1 == "" then skipSeparatorRows rest
    else
      match extractQuotedLine r.1 with
      | some q => if trimStr q == "" then rest else r :: rest
      | none => r :: rest

/-- Embedding of the message-collection loop: gathers quoted lines until a
blank row after content, a non-quoted row after content, or a row whose
quote parses as a new thread header (left unconsumed).  Returns the
collected quoted contents, the remaining rows, and the issues pushed for
non-quoted rows. -/
def collectMessageRows (relativePath : String) :
    List (String × Nat) → List String →
    List String × List (String × Nat) × List Issue
  | [], acc => (acc, [], [])
  | r :: rest, acc =>
    let trimmed := trimStr r.1
    if trimmed == "" then
      if acc.isEmpty then collectMessageRows relativePath rest acc
      else (acc, rest, [])
    else
      match extractQuotedLine r.1 with
      | none =>
        let iss := makeIssue "error" "comments"
          ("Invalid thread line '" ++ trimmed ++
            "'. Expected blockquote content starting with '>'.")
          (some relativePath) (some r.2)
        if acc.isEmpty then
          let out := collectMessageRows relativePath rest acc
          (out.1, out.2.1, iss :: out.2.2)
        else (acc, rest, [iss])
      | some q =>
        if (parseThreadHeader q).isSome then (acc, r :: rest, [])
        else collectMessageRows relativePath rest (acc ++ [q])

/-- State of the per-thread row loop: the resolved flag decoded so far,
whether a metadata row was seen, and the message entries recorded. -/
structure ThreadScanState where
  resolved : Option Bool
  sawMeta64 : Bool
  thread : List String
deriving DecidableEq, Repr

/-- Embedding of the per-thread row loop of parseStegoCommentThreads: the
first nonblank row must be the metadata row; after it, a blockquote header
opens the single permitted message block; a further nonblank row once a
message was recorded is the multiple-message error and stops the thread.
Structured on fuel, one unit per loop iteration; callers pass the row
count, which bounds the iterations. -/
def threadRowsLoop (b64decode : String → Option String)
    (jsonParse : String → Option JsonValue) (id relativePath : String) :
    Nat → List (String × Nat) → ThreadScanState →
    ThreadScanState × List Issue
  | _, [], st => (st, [])
  | 0, _ :: _, st => (st, [])
  | fuel + 1, r :: rest, st =>
    let trimmedRow := trimStr r.1
    if trimmedRow == "" then
      threadRowsLoop b64decode jsonParse id relativePath fuel rest st
    else if !st.thread.isEmpty then
      (st, [makeIssue "error" "comments"
        ("Multiple message blocks found for " ++ id ++
          ". Create a new CMT id for each reply.")
        (some relativePath) (some r.2)])
    else if !st.sawMeta64 then
      match matchMeta64Row trimmedRow with
      | none =>
        let iss := makeIssue "error" "comments"
          ("Invalid comment metadata row '" ++ trimmedRow ++
            "'. Expected '<!-- meta64: <base64url-json> -->'.")
          (some relativePath) (some r.2)
        let out := threadRowsLoop b64decode jsonParse id relativePath fuel rest st
        (out.1, iss :: out.2)
      | some payload =>
        let dec := decodeCommentMeta64 b64decode jsonParse payload id
          relativePath r.2
        let st2 : ThreadScanState :=
          ⟨match dec.1 with
            | some b => some b
            | none => st.resolved,
           true, st.thread⟩
        let out := threadRowsLoop b64decode jsonParse id relativePath fuel rest st2
        (out.1, dec.2 ++ out.2)
    else
      match extractQuotedLine r.1 with
      | none =>
        let iss := makeIssue "error" "comments"
          ("Invalid thread header '" ++ trimmedRow ++
            "'. Expected blockquote header like '> _timestamp | author_'.")
          (some relativePath) (some r.2)
        let out := threadRowsLoop b64decode jsonParse id relativePath fuel rest st
        (out.1, iss :: out.2)
      | some headerQuote =>
        match parseThreadHeader headerQuote with
        | none =>
          let iss := makeIssue "error" "comments"
            ("Invalid thread header '" ++ trimStr headerQuote ++
              "'. Expected '> _timestamp | author_'.")
            (some relativePath) (some r.2)
          let out := threadRowsLoop b64decode jsonParse id relativePath fuel rest st
          (out.1, iss :: out.2)
        | some hdr =>
          let rest1 := skipSeparatorRows rest
          let collected := collectMessageRows relativePath rest1 []
          let msgs := popTrailingBlanks collected.1
          let rest2 := collected.2.1
          let msgIssues := collected.2.2
          if msgs.isEmpty then
            let iss := makeIssue "error" "comments"
              ("Thread entry for comment " ++ id ++
                " is missing message text.")
              (some relativePath) (some r.2)
            let out := threadRowsLoop b64decode jsonParse id relativePath fuel rest2 st
            (out.1, msgIssues ++ iss :: out.2)
          else
            let message := trimStr (joinWith "\n" msgs)
            let st2 : ThreadScanState :=
              ⟨st.resolved, st.sawMeta64,
               st.thread ++ [hdr.1 ++ " | " ++ hdr.2 ++ " | " ++ message]⟩
            let out := threadRowsLoop b64decode jsonParse id relativePath fuel rest2 st2
            (out.1, msgIssues ++ out.2)

/-- Pair each line with its 1-based document line number, starting at the
given number. -/
def numberRows (k : Nat) : List String → List (String × Nat)
  | [] => []
  | l :: ls => (l, k) :: numberRows (k + 1) ls

/-- Embedding of the outer loop of parseStegoCommentThreads: skip blank
lines, report non-heading lines, and for each heading collect the rows up
to the next heading and run the per-thread loop, then append the
missing-metadata and missing-entries diagnostics and emit the thread.
Structured on fuel, one unit per processed line. -/
def commentThreadsLoop (b64decode : String → Option String)
    (jsonParse : String → Option JsonValue)
    (relativePath : String) (baseLine : Nat) :
    Nat → Nat → List String → List ParsedCommentThread × List Issue
  | _, _, [] => ([], [])
  | 0, _, _ :: _ => ([], [])
  | fuel + 1, index, l :: ls =>
    let trimmed := trimStr l
    if trimmed == "" then
      commentThreadsLoop b64decode jsonParse relativePath baseLine fuel
        (index + 1) ls
    else
      match matchCmtHeading trimmed with
      | none =>
        let iss := makeIssue "error" "comments"
          "Invalid comments appendix line. Expected heading like '### CMT-0001'."
          (some relativePath) (some (baseLine + index))
        let out := commentThreadsLoop b64decode jsonParse relativePath baseLine
          fuel (index + 1) ls
        (out.1, iss :: out.2)
      | some id =>
        let rowLines := ls.takeWhile (fun x => !(isCmtHeading (trimStr x)))
        let restLines := ls.dropWhile (fun x => !(isCmtHeading (trimStr x)))
        let rows := numberRows (baseLine + index + 1) rowLines
        let scan := threadRowsLoop b64decode jsonParse id relativePath
          rows.length rows ⟨none, false, []⟩
        let st := scan.1
        let metaIssues :=
          if st.sawMeta64 then ([] : List Issue)
          else [makeIssue "error" "comments"
            ("Comment " ++ id ++
              " is missing metadata row ('<!-- meta64: <base64url-json> -->').")
            (some relativePath) none]
        let resolvedFinal := if st.sawMeta64 then st.resolved else some false
        let entryIssues :=
          if st.thread.isEmpty then
            [makeIssue "error" "comments"
              ("Comment " ++ id ++ " is missing valid blockquote thread entries.")
              (some relativePath) none]
          else []
        let out := commentThreadsLoop b64decode jsonParse relativePath baseLine
          fuel (index + 1 + rowLines.length) restLines
        (⟨id, resolvedFinal.getD false, st.thread⟩ :: out.1,
         scan.2 ++ metaIssues ++ entryIssues ++ out.2)

/-- Embedding of parseStegoCommentThreads over the lines between the two
appendix markers. -/
def parseStegoCommentThreads (b64decode : String → Option String)
    (jsonParse : String → Option JsonValue)
    (lines : List String) (relativePath : String) (baseLine : Nat) :
    List ParsedCommentThread × List Issue :=
  commentThreadsLoop b64decode jsonParse relativePath baseLine
    lines.length 0 lines

/-- Indexes of the lines whose trim equals the marker, with the running
index threaded through. -/
def findIdxAux (marker : String) : Nat → List String → List Nat
  | _, [] => []
  | i, l :: ls =>
    if trimStr l == marker then i :: findIdxAux marker (i + 1) ls
    else findIdxAux marker (i + 1) ls

/-- Embedding of findTrimmedLineIndexes. -/
def findTrimmedLineIndexes (lines : List String) (marker : String) : List Nat :=
  findIdxAux marker 0 lines

/-- The fixed appendix start marker line. -/
def stegoStartMarker : String := "<!-- stego-comments:start -->"

/-- The fixed appendix end marker line. -/
def stegoEndMarker : String := "<!-- stego-comments:end -->"

/-- Result of the appendix parser, as in the source's return object. -/
structure AppendixResult where
  bodyWithoutComments : String
  comments : List ParsedCommentThread
  issues : List Issue
deriving DecidableEq, Repr

/-- Embedding of parseStegoCommentsAppendix: locate the single start and
end markers, parse the span between them as threads, and remove the span
together with one adjacent preceding blank line and trailing blank lines. -/
def parseStegoCommentsAppendix (b64decode : String → Option String)
    (jsonParse : String → Option JsonValue)
    (body relativePath : String) (bodyStartLine : Nat) : AppendixResult :=
  let lineEnding := if hasCRLF body.data then "\r\n" else "\n"
  let lines := splitLines body
  let startIndexes := findTrimmedLineIndexes lines stegoStartMarker
  let endIndexes := findTrimmedLineIndexes lines stegoEndMarker
  if startIndexes.length = 0 ∧ endIndexes.length = 0 then ⟨body, [], []⟩
  else if startIndexes.length ≠ 1 ∨ endIndexes.length ≠ 1 then
    ⟨body, [],
      (if startIndexes.length ≠ 1 then
        [makeIssue "error" "comments"
          ("Expected exactly one '" ++ stegoStartMarker ++ "' marker.")
          (some relativePath) none]
      else []) ++
      (if endIndexes.length ≠ 1 then
        [makeIssue "error" "comments"
          ("Expected exactly one '" ++ stegoEndMarker ++ "' marker.")
          (some relativePath) none]
      else [])⟩
  else
    let s := startIndexes.headD 0
    let e := endIndexes.headD 0
    if e ≤ s then
      ⟨body, [],
        [makeIssue "error" "comments"
          ("'" ++ stegoEndMarker ++ "' must appear after '" ++
            stegoStartMarker ++ "'.")
          (some relativePath) (some (bodyStartLine + e))]⟩
    else
      let blockLines := (lines.drop (s + 1)).take (e - (s + 1))
      let parsed := parseStegoCommentThreads b64decode jsonParse blockLines
        relativePath (bodyStartLine + s + 1)
      let removeStart :=
        if s > 0 ∧ trimStr (lines.getD (s - 1) "") == "" then s - 1 else s
      let kept := lines.take removeStart ++ lines.drop (e + 1)
      let kept2 := popTrailingBlanks kept
      ⟨joinWith lineEnding kept2, parsed.1, parsed.2⟩

/-- A header-block metadata value: a string, a number, a boolean, or a
string list, as the MetadataValue union of the source. -/
inductive MetadataValue where
  | mstr (s : String)
  | mnum (n : Int)
  | mbool (b : Bool)
  | mlist (xs : List String)
deriving DecidableEq, Repr

/-- First-character test on a character list. -/
def headIs (cs : List Char) (c : Char) : Bool :=
  match cs with
  | x :: _ => x == c
  | [] => false

/-- Remove one leading and one trailing quote character of either kind,
the edge-quote replacement applied to list entries. -/
def stripEdgeQuotes (s : String) : String :=
  let cs := s.data
  let cs1 := match cs with
    | c :: rest => if c == '\'' ∨ c == '"' then rest else cs
    | [] => cs
  let cs2 := match cs1.reverse with
    | c :: restRev => if c == '\'' ∨ c == '"' then restRev.reverse else cs1
    | [] => cs1
  String.mk cs2

/-- Digit run to its numeric value, as Number on an all-digit string. -/
def digitsToNat (ds : List Char) : Nat :=
  ds.foldl (fun n c => n * 10 + (c.toNat - '0'.toNat)) 0

/-- Embedding of coerceMetadataValue: unwrap matching quotes, split a
bracketed list on commas, convert all-digit values (with optional sign)
to numbers and the two boolean literals to booleans, else keep the
string. -/
def coerceMetadataValue (value : String) : MetadataValue :=
  if value = "" then .mstr ""
  else
    let cs := value.data
    if (headIs cs '"' ∧ headIs cs.reverse '"') ∨
        (headIs cs '\'' ∧ headIs cs.reverse '\'') then
      .mstr (String.mk ((cs.drop 1).dropLast))
    else if headIs cs '[' ∧ headIs cs.reverse ']' then
      let inner := trimStr (String.mk ((cs.drop 1).dropLast))
      if inner = "" then .mlist []
      else .mlist ((inner.splitOn ",").map (fun entry =>
        stripEdgeQuotes (trimStr entry)))
    else
      let digitPart := match cs with
        | '-' :: rest => rest
        | _ => cs
      if !digitPart.isEmpty ∧ digitPart.all Char.isDigit then
        .mnum (if headIs cs '-' then -(digitsToNat digitPart : Int)
          else (digitsToNat digitPart : Int))
      else if value = "true" then .mbool true
      else if value = "false" then .mbool false
      else .mstr value

/-- Prefix test over the underlying characters. -/
def startsWithStr (s p : String) : Bool := p.data.isPrefixOf s.data

/-- Consume the opening metadata delimiter: three dashes, an optional
carriage return, a newline. -/
def consumeHeaderOpen : List Char → Option (List Char)
  | '-' :: '-' :: '-' :: '\r' :: '\n' :: r => some r
  | '-' :: '-' :: '-' :: '\n' :: r => some r
  | _ => none

/-- Closing-delimiter test at the current position: an optional carriage
return and a newline, three dashes, then greedily an optional carriage
return and an optional newline; returns the remainder after the match. -/
def matchMetaCloseAt (cs : List Char) : Option (List Char) :=
  let step1 : Option (List Char) :=
    match cs with
    | '\r' :: '\n' :: r => some r
    | '\n' :: r => some r
    | _ => none
  match step1 with
  | none => none
  | some r1 =>
    match r1 with
    | '-' :: '-' :: '-' :: r2 =>
      let r3 := match r2 with
        | '\r' :: '\n' :: r => r
        | '\r' :: r => r
        | '\n' :: r => r
        | _ => r2
      some r3
    | _ => none

/-- Lazy scan for the closing metadata delimiter: the earliest position
at which the closing pattern matches; returns the delimited content and
the remainder after the whole match. -/
def findMetaClose : List Char → Option (List Char × List Char)
  | [] => none
  | c :: cs2 =>
    match matchMetaCloseAt (c :: cs2) with
    | some body => some ([], body)
    | none =>
      match findMetaClose cs2 with
      | some gb => some (c :: gb.1, gb.2)
      | none => none

/-- Count of leading whitespace characters, the indent computation. -/
def leadingWsCount (s : String) : Nat := (s.data.takeWhile isWs).length

/-- Assignment into the header map: overwrite an existing key in place,
else append, as property assignment on a JavaScript object. -/
def objSet (md : List (String × MetadataValue)) (key : String)
    (v : MetadataValue) : List (String × MetadataValue) :=
  if md.any (fun kv => kv.1 == key) then
    md.map (fun kv => if kv.1 == key then (key, v) else kv)
  else md ++ [(key, v)]

/-- The lookahead of the block-list parser: the first line at or after
the given index whose trim is nonblank and is not a comment line. -/
def lookaheadIndexLoop (lines : List String) : Nat → Nat → Option Nat
  | 0, _ => none
  | fuel + 1, j =>
    if j < lines.length then
      let t := trimStr (lines.getD j "")
      if t == "" ∨ headIs t.data '#' then lookaheadIndexLoop lines fuel (j + 1)
      else some j
    else none

/-- The block-list collection loop: gather indented dash items, skip
blank and comment lines, stop at the first zero-indent line, and report
indented non-dash lines while continuing.  Returns the items, the issues
pushed, and the index at which the loop stopped. -/
def blockListLoop (relativePath : String) (lines : List String) :
    Nat → Nat → List String × List Issue × Nat
  | 0, j => ([], [], j)
  | fuel + 1, j =>
    if j < lines.length then
      let candidateRaw := lines.getD j ""
      let candidateTrimmed := trimStr candidateRaw
      if candidateTrimmed == "" ∨ headIs candidateTrimmed.data '#' then
        blockListLoop relativePath lines fuel (j + 1)
      else
        let indent := leadingWsCount candidateRaw
        if indent = 0 then ([], [], j)
        else if !(candidateTrimmed.data.take 2 == ['-', ' ']) then
          let out := blockListLoop relativePath lines fuel (j + 1)
          (out.1,
            makeIssue "error" "metadata"
              ("Unsupported metadata list line '" ++ candidateTrimmed ++
                "'. Expected '- value'.")
              (some relativePath) (some (j + 1)) :: out.2.1,
            out.2.2)
        else
          let itemValue := stripEdgeQuotes
            (trimStr (String.mk (candidateTrimmed.data.drop 2)))
          let out := blockListLoop relativePath lines fuel (j + 1)
          (itemValue :: out.1, out.2.1, out.2.2)
    else ([], [], j)

/-- The line loop of the header-block parser: skip blank and comment
lines, report lines without a colon, parse key and value, and when the
inline value is empty look ahead for an indented dash list.  Structured
on fuel, one unit per outer iteration. -/
def metaLinesLoop (relativePath : String) (lines : List String) :
    Nat → Nat → List (String × MetadataValue) → List Issue →
    List (String × MetadataValue) × List Issue
  | 0, _, md, iss => (md, iss)
  | fuel + 1, i, md, iss =>
    if i < lines.length then
      let line := trimStr (lines.getD i "")
      if line == "" ∨ headIs line.data '#' then
        metaLinesLoop relativePath lines fuel (i + 1) md iss
      else
        match line.data.findIdx? (fun c => c == ':') with
        | none =>
          metaLinesLoop relativePath lines fuel (i + 1) md
            (iss ++ [makeIssue "error" "metadata"
              ("Invalid metadata line '" ++ line ++
                "'. Expected 'key: value' format.")
              (some relativePath) (some (i + 1))])
        | some separatorIndex =>
          let key := trimStr (String.mk (line.data.take separatorIndex))
          let value := trimStr (String.mk (line.data.drop (separatorIndex + 1)))
          let blockResult :=
            if value == "" then
              match lookaheadIndexLoop lines (lines.length + 1) (i + 1) with
              | some j0 =>
                let firstValueLine := lines.getD j0 ""
                let firstValueTrimmed := trimStr firstValueLine
                let firstValueIndent := leadingWsCount firstValueLine
                if firstValueIndent > 0 ∧
                    firstValueTrimmed.data.take 2 == ['-', ' '] then
                  some (blockListLoop relativePath lines
                    (lines.length + 1) j0)
                else none
              | none => none
            else none
          match blockResult with
          | some out =>
            metaLinesLoop relativePath lines fuel out.2.2
              (objSet md key (.mlist out.1)) (iss ++ out.2.1)
          | none =>
            metaLinesLoop relativePath lines fuel (i + 1)
              (objSet md key (coerceMetadataValue value)) iss
    else (md, iss)

/-- Result of the header-block parser, as in the source's return object. -/
structure ParseMetadataResult where
  metadata : List (String × MetadataValue)
  body : String
  comments : List ParsedCommentThread
  issues : List Issue
deriving DecidableEq

/-- Embedding of parseMetadata.  The project-relative path the source
derives from the file path is taken as given.  Without an opening
delimiter the text goes to the appendix parser unchanged; with an opening
but no closing delimiter a structural error is returned; otherwise the
delimited block is parsed line by line and the remaining body goes to the
appendix parser. -/
def parseMetadata (b64decode : String → Option String)
    (jsonParse : String → Option JsonValue)
    (raw relativePath : String) (required : Bool) : ParseMetadataResult :=
  if !(startsWithStr raw "---\n") ∧ !(startsWithStr raw "---\r\n") then
    let commentsResult := parseStegoCommentsAppendix b64decode jsonParse raw
      relativePath 1
    if !required then
      ⟨[], commentsResult.bodyWithoutComments, commentsResult.comments,
        commentsResult.issues⟩
    else
      ⟨[], commentsResult.bodyWithoutComments, commentsResult.comments,
        makeIssue "error" "metadata" "Missing metadata block at top of file."
          (some relativePath) none :: commentsResult.issues⟩
  else
    match consumeHeaderOpen raw.data with
    | none =>
      ⟨[], raw, [],
        [makeIssue "error" "metadata"
          "Metadata opening delimiter found, but closing delimiter is missing."
          (some relativePath) none]⟩
    | some opened =>
      match findMetaClose opened with
      | none =>
        ⟨[], raw, [],
          [makeIssue "error" "metadata"
            "Metadata opening delimiter found, but closing delimiter is missing."
            (some relativePath) none]⟩
      | some gb =>
        let metadataText := String.mk gb.1
        let lines := splitLines metadataText
        let parsed := metaLinesLoop relativePath lines (lines.length + 1) 0 [] []
        let bodyStr := String.mk gb.2
        let match0 := raw.data.take (raw.data.length - gb.2.length)
        let bodyStartLine := (splitLines (String.mk match0)).length
        let commentsResult := parseStegoCommentsAppendix b64decode jsonParse
          bodyStr relativePath bodyStartLine
        ⟨parsed.1, commentsResult.bodyWithoutComments,
          commentsResult.comments, parsed.2 ++ commentsResult.issues⟩

/-- Suffix test over the underlying characters. -/
def isSuffixOfStr (suf s : String) : Bool :=
  suf.data.reverse.isPrefixOf s.data.reverse

/-- Embedding of the basename computation with the markdown extension
stripped, as path.basename with a second argument. -/
def basenameMd (p : String) : String :=
  let seg := String.mk ((p.data.reverse.takeWhile (fun c => c != '/')).reverse)
  if seg ≠ ".md" ∧ isSuffixOfStr ".md" seg then
    String.mk (seg.data.take (seg.data.length - 3))
  else seg

/-- Leading digit run immediately followed by a dash or underscore, the
order-key pattern on a basename. -/
def matchOrderDigits (base : String) : Option (List Char) :=
  let ds := base.data.takeWhile Char.isDigit
  if ds.isEmpty then none
  else
    match base.data.drop ds.length with
    | c :: _ => if c = '-' ∨ c = '_' then some ds else none
    | [] => none

/-- Embedding of parseOrderFromFilename: a missing numeric filename
order key is a hard error; a run of digits of length other than three is
a style warning; the digit run is converted to its numeric value. -/
def parseOrderFromFilename (chapterPath relativePath : String) :
    Option Nat × List Issue :=
  let base := basenameMd chapterPath
  match matchOrderDigits base with
  | none =>
    (none, [makeIssue "error" "ordering"
      "Filename must start with a numeric prefix followed by '-' or '_' (for example '100-scene.md')."
      (some relativePath) none])
  | some ds =>
    let warnings :=
      if ds.length ≠ 3 then
        [makeIssue "warning" "ordering"
          ("Filename prefix '" ++ String.mk ds ++
            "' is valid but non-standard. Use three digits like 100, 200, 300.")
          (some relativePath) none]
      else []
    (some (digitsToNat ds), warnings)

/-- The duplicate-order detection loop of inspectProject: walk the
chapters in file order, remember the first chapter seen for each order
key, and report an error naming both paths when a key repeats; a
repeated key is not re-inserted. -/
def duplicateOrderScanLoop : List (Nat × String) → List (Option Nat × String) →
    List Issue
  | _, [] => []
  | seen, (o, rp) :: rest =>
    match o with
    | none => duplicateOrderScanLoop seen rest
    | some n =>
      match seen.find? (fun kv => kv.1 == n) with
      | some kv =>
        makeIssue "error" "ordering"
          ("Duplicate filename order prefix '" ++ toString n ++ "' in " ++
            rp ++ " and " ++ kv.2)
          (some rp) none :: duplicateOrderScanLoop seen rest
      | none => duplicateOrderScanLoop (seen ++ [(n, rp)]) rest

/-- Embedding of the duplicate-order pass of inspectProject over the
chapters' derived order keys and relative paths. -/
def detectDuplicateOrders (chapters : List (Option Nat × String)) : List Issue :=
  duplicateOrderScanLoop [] chapters

/-- A grouping level of the compiled-output structure, as the
CompileStructureLevel interface. -/
structure CompileStructureLevel where
  key : String
  label : String
  titleKey : Option String
  injectHeading : Bool
  headingTemplate : String
  pageBreak : String
deriving DecidableEq, Repr

/-- The fields of a chapter entry that the assembly pass reads. -/
structure ChapterEntry where
  relativePath : String
  title : String
  order : Option Nat
  status : String
  groupValues : List (String × String)
  metadata : List (String × MetadataValue)
  body : String
deriving DecidableEq, Repr

/-- Property access on the group-values record (keys are unique). -/
def lookupRecord (gv : List (String × String)) (k : String) : Option String :=
  (gv.find? (fun kv => kv.1 == k)).map (fun kv => kv.2)

/-- Property access on the header map (keys are unique). -/
def lookupMetadata (md : List (String × MetadataValue)) (k : String) :
    Option MetadataValue :=
  (md.find? (fun kv => kv.1 == k)).map (fun kv => kv.2)

/-- JavaScript stringification of a metadata value. -/
def metadataValueToString : MetadataValue → String
  | .mstr s => s
  | .mnum n => toString n
  | .mbool b => if b then "true" else "false"
  | .mlist xs => joinWith "," xs

/-- Embedding of toScalarMetadataString: null, the empty string and
arrays give nothing; otherwise the stringified, trimmed value when
nonempty. -/
def toScalarMetadataString : Option MetadataValue → Option String
  | none => none
  | some (.mstr "") => none
  | some (.mlist _) => none
  | some v =>
    let normalized := trimStr (metadataValueToString v)
    if normalized = "" then none else some normalized

/-- JavaScript falsiness of an optional string: undefined or empty. -/
def isFalsyStr : Option String → Bool
  | none => true
  | some s => s == ""

/-- Replace each whitespace run by one copy of the given character; the
flag records whether the previous character was whitespace. -/
def wsRunsTo (rep : Char) : Bool → List Char → List Char
  | _, [] => []
  | prevWs, c :: rest =>
    if isWs c then
      if prevWs then wsRunsTo rep true rest
      else rep :: wsRunsTo rep true rest
    else c :: wsRunsTo rep false rest

/-- Strip one trailing colon together with the whitespace after it. -/
def stripTrailingColonWs (cs : List Char) : List Char :=
  match cs.reverse.dropWhile isWs with
  | ':' :: restRev => restRev.reverse
  | _ => cs

/-- Embedding of formatCompileStructureHeading: the default template
without a title falls back to label and value; otherwise substitute the
placeholders, collapse whitespace runs, strip a trailing colon, trim. -/
def formatCompileStructureHeading (level : CompileStructureLevel)
    (value : String) (title : Option String) : String :=
  let resolvedTitle := title.getD ""
  if resolvedTitle = "" ∧ level.headingTemplate = "{label} {value}: {title}" then
    level.label ++ " " ++ value
  else
    let substituted := ((level.headingTemplate.replace "{label}" level.label).replace
      "{value}" value).replace "{title}" resolvedTitle
    trimStr (String.mk (stripTrailingColonWs (wsRunsTo ' ' false substituted.data)))

/-- Embedding of slugify: lowercase, keep only lowercase letters, digits,
whitespace and dashes, trim, turn whitespace runs into dashes. -/
def slugify (value : String) : String :=
  let lowered := value.data.map Char.toLower
  let filtered := lowered.filter (fun c =>
    decide ('a' ≤ c ∧ c ≤ 'z') || c.isDigit || isWs c || c == '-')
  String.mk (wsRunsTo '-' false (trimChars filtered))

/-- The two inherited-state maps of the assembly pass: previous effective
group values and previous effective group titles, keyed by level key. -/
structure LevelPassState where
  prevValues : String → Option String
  prevTitles : String → Option String

/-- Output of the per-chapter level loop: the lines and table-of-contents
entries emitted, the changed flag and effective value of every level (in
level order), the updated state, and whether a page break was inserted. -/
structure LevelPassOut where
  lines : List String
  tocEntries : List (Nat × String)
  changedFlags : List Bool
  levelValues : List (Option String)
  state : LevelPassState
  insertedBreak : Bool

/-- Embedding of the per-chapter level loop of buildManuscript: for each
level, the effective value is the chapter's own group value when present,
else the inherited previous value; the level changed when the enclosing
level changed or the effective value differs from the previous one; on a
change with a nonempty value, a single page-break marker per chapter may
be emitted and a heading may be injected; the inherited maps always
record the effective value and title. -/
def processLevels (entry : ChapterEntry) (chapterIndex : Nat) :
    List CompileStructureLevel → Nat → LevelPassState → Bool → Bool →
    LevelPassOut
  | [], _, st, insertedBreak, _ => ⟨[], [], [], [], st, insertedBreak⟩
  | level :: restLevels, levelIndex, st, insertedBreak, lastChanged =>
    let explicitValue := lookupRecord entry.groupValues level.key
    let previousValue := st.prevValues level.key
    let currentValue := match explicitValue with
      | some v => some v
      | none => previousValue
    let explicitTitle := match level.titleKey with
      | some tk =>
        if tk = "" then none
        else toScalarMetadataString (lookupMetadata entry.metadata tk)
      | none => none
    let previousTitle := st.prevTitles level.key
    let currentTitle := match explicitTitle with
      | some t => some t
      | none => previousTitle
    let parentChanged := decide (levelIndex > 0) && lastChanged
    let changed := parentChanged || decide (currentValue ≠ previousValue)
    let st2 : LevelPassState :=
      ⟨fun k => if k == level.key then currentValue else st.prevValues k,
       fun k => if k == level.key then currentTitle else st.prevTitles k⟩
    if !changed || isFalsyStr currentValue then
      let out := processLevels entry chapterIndex restLevels (levelIndex + 1)
        st2 insertedBreak changed
      ⟨out.lines, out.tocEntries, changed :: out.changedFlags,
        currentValue :: out.levelValues, out.state, out.insertedBreak⟩
    else
      let doBreak := level.pageBreak = "between-groups" ∧ chapterIndex > 0 ∧
        insertedBreak = false
      let breakLines := if doBreak then ["\\newpage", ""] else []
      let insertedBreak2 := if doBreak then true else insertedBreak
      let headingOut :=
        if level.injectHeading then
          let heading := formatCompileStructureHeading level
            (currentValue.getD "") currentTitle
          let headingLevel := min 6 (2 + levelIndex)
          ([(levelIndex, heading)],
           [String.mk (List.replicate headingLevel '#') ++ " " ++ heading, ""])
        else ([], [])
      let out := processLevels entry chapterIndex restLevels (levelIndex + 1)
        st2 insertedBreak2 changed
      ⟨breakLines ++ headingOut.2 ++ out.lines,
        headingOut.1 ++ out.tocEntries, changed :: out.changedFlags,
        currentValue :: out.levelValues, out.state, out.insertedBreak⟩

/-- Hash-mark run for a markdown heading of the given depth. -/
def hashesStr (n : Nat) : String := String.mk (List.replicate n '#')

/-- Template interpolation of an order key; the absent key prints as
null. -/
def orderToString : Option Nat → String
  | none => "null"
  | some n => toString n

/-- Observable output of one chapter in the assembly pass: the lines it
contributes, its table-of-contents entries, whether a page break was
inserted for it, and the changed flag and effective value per level. -/
structure ChapterObs where
  lines : List String
  tocEntries : List (Nat × String)
  insertedBreak : Bool
  changedFlags : List Bool
  levelValues : List (Option String)
deriving DecidableEq, Repr

/-- One chapter of the assembly pass: the level loop, then the chapter
heading, the provenance comment and the trimmed body. -/
def chapterChunk (levels : List CompileStructureLevel) (entryHeadingLevel : Nat)
    (entry : ChapterEntry) (chapterIndex : Nat) (st : LevelPassState) :
    ChapterObs × LevelPassState :=
  let out := processLevels entry chapterIndex levels 0 st false false
  let chunk := out.lines ++
    [hashesStr entryHeadingLevel ++ " " ++ entry.title, "",
     "<!-- source: " ++ entry.relativePath ++ " | order: " ++
       orderToString entry.order ++ " | status: " ++ entry.status ++ " -->",
     "", trimStr entry.body, ""]
  (⟨chunk, out.tocEntries, out.insertedBreak, out.changedFlags,
    out.levelValues⟩, out.state)

/-- The chapter loop of buildManuscript, threading the inherited state. -/
def chaptersLoop (levels : List CompileStructureLevel)
    (entryHeadingLevel : Nat) :
    List ChapterEntry → Nat → LevelPassState → List ChapterObs
  | [], _, _ => []
  | entry :: rest, chapterIndex, st =>
    let out := chapterChunk levels entryHeadingLevel entry chapterIndex st
    out.1 :: chaptersLoop levels entryHeadingLevel rest (chapterIndex + 1) out.2

/-- The empty inherited state at the start of the assembly pass. -/
def initialLevelPassState : LevelPassState := ⟨fun _ => none, fun _ => none⟩

/-- The per-chapter observations of one assembly run. -/
def buildManuscriptObs (levels : List CompileStructureLevel)
    (chapters : List ChapterEntry) : List ChapterObs :=
  chaptersLoop levels (min 6 (2 + levels.length)) chapters 0
    initialLevelPassState

/-- A rendered table-of-contents line, indented by nesting depth. -/
def tocLineFor (e : Nat × String) : String :=
  String.join (List.replicate e.1 "  ") ++ "- [" ++ e.2 ++ "](#" ++
    slugify e.2 ++ ")"

/-- Index of the first line equal to the target, as indexOf. -/
def indexOfLine (target : String) : List String → Option Nat
  | [] => none
  | l :: ls =>
    if l == target then some 0
    else match indexOfLine target ls with
      | some k => some (k + 1)
      | none => none

/-- Embedding of the line construction of buildManuscript: the preamble
with title, optional subtitle and author and the table-of-contents
heading, then every chapter's lines, then the recorded table-of-contents
entries spliced in directly after the table-of-contents heading. -/
def buildManuscriptLines (generatedAt title subtitle author : String)
    (levels : List CompileStructureLevel) (chapters : List ChapterEntry) :
    List String :=
  let obs := buildManuscriptObs levels chapters
  let tocEntries := (obs.map (fun o => o.tocEntries)).flatten
  let preamble :=
    ["<!-- generated: " ++ generatedAt ++ " -->", "", "# " ++ title, ""] ++
    (if subtitle ≠ "" then ["_" ++ subtitle ++ "_", ""] else []) ++
    (if author ≠ "" then ["Author: " ++ author, ""] else []) ++
    ["Generated: " ++ generatedAt, "", "## Table of Contents", ""] ++
    (if levels.isEmpty then
      ["- [Manuscript](#" ++ slugify "Manuscript" ++ ")"]
    else []) ++
    [""]
  let lines := preamble ++ (obs.map (fun o => o.lines)).flatten
  if tocEntries.length > 0 then
    match indexOfLine "## Table of Contents" lines with
    | some tocStart =>
      let insertAt := tocStart + 2
      lines.take insertAt ++ tocEntries.map tocLineFor ++ lines.drop insertAt
    | none => lines
  else lines

/-- A level together with its observed changed flag and effective value
contributes a page break when break-between-groups is enabled for the
level, the level changed, and the effective value is truthy. -/
def breakEnabledChange (p : CompileStructureLevel × (Bool × Option String)) :
    Bool :=
  (p.1.pageBreak == "between-groups") && p.2.1 && !isFalsyStr p.2.2

/-- Modelled from the spec: the per-document, per-level grouping facts of
the assembly pass, computed from the document-level inherited map alone.
For each level in order, the effective value is the document's own header
field when present, else the inherited value; the changed flag is true
exactly when an earlier level changed at this document or the effective
value differs from the preceding document's effective value for the
level. -/
def specDocFlags (entry : ChapterEntry) (prev : String → Option String) :
    List CompileStructureLevel → Bool → List (Bool × Option String)
  | [], _ => []
  | level :: rest, parentChanged =>
    let cur := match lookupRecord entry.groupValues level.key with
      | some v => some v
      | none => prev level.key
    let changed := parentChanged || decide (cur ≠ prev level.key)
    (changed, cur) :: specDocFlags entry prev rest changed

/-- Modelled from the spec: one inheritance step of the effective
grouping values across a document. -/
def specEffStep (entry : ChapterEntry) (prev : String → Option String) :
    String → Option String :=
  fun k => match lookupRecord entry.groupValues k with
    | some v => some v
    | none => prev k

/-- Modelled from the spec: the per-document sequences of changed flags
and effective values over an ordered document list, starting from the
given inherited assignment. -/
def specDocSeq (levels : List CompileStructureLevel) :
    (String → Option String) → List ChapterEntry →
    List (List (Bool × Option String))
  | _, [] => []
  | prev, e :: es =>
    specDocFlags e prev levels false ::
      specDocSeq levels (specEffStep e prev) es

/-- C3: for every document body given to the comment-appendix parser, if
neither marker occurs there is no appendix, no issue, and the body is
returned unchanged; if the count of either marker differs from one, an
error issue of the comments category is reported and the body is returned
unchanged; and if the single end marker is at or before the single start
marker, an error issue is reported and the body is returned unchanged. -/
theorem stego_appendix_marker_cases (b64 : String → Option String)
    (jp : String → Option JsonValue) (body rp : String) (n : Nat) :
    ((findTrimmedLineIndexes (splitLines body) stegoStartMarker).length = 0 ∧
     (findTrimmedLineIndexes (splitLines body) stegoEndMarker).length = 0 →
      parseStegoCommentsAppendix b64 jp body rp n = ⟨body, [], []⟩) ∧
    (¬((findTrimmedLineIndexes (splitLines body) stegoStartMarker).length = 0 ∧
       (findTrimmedLineIndexes (splitLines body) stegoEndMarker).length = 0) →
     ((findTrimmedLineIndexes (splitLines body) stegoStartMarker).length ≠ 1 ∨
      (findTrimmedLineIndexes (splitLines body) stegoEndMarker).length ≠ 1) →
      (parseStegoCommentsAppendix b64 jp body rp n).bodyWithoutComments = body ∧
      (parseStegoCommentsAppendix b64 jp body rp n).comments = [] ∧
      ∃ i ∈ (parseStegoCommentsAppendix b64 jp body rp n).issues,
        i.level = "error" ∧ i.category = "comments") ∧
    ((findTrimmedLineIndexes (splitLines body) stegoStartMarker).length = 1 →
     (findTrimmedLineIndexes (splitLines body) stegoEndMarker).length = 1 →
     (findTrimmedLineIndexes (splitLines body) stegoEndMarker).headD 0 ≤
       (findTrimmedLineIndexes (splitLines body) stegoStartMarker).headD 0 →
      (parseStegoCommentsAppendix b64 jp body rp n).bodyWithoutComments = body ∧
      (parseStegoCommentsAppendix b64 jp body rp n).comments = [] ∧
      ∃ i ∈ (parseStegoCommentsAppendix b64 jp body rp n).issues,
        i.level = "error" ∧ i.category = "comments") := by
  refine ⟨?_, ?_, ?_⟩
  · intro h
    simp only [parseStegoCommentsAppendix]
    rw [if_pos ⟨h.1, h.2⟩]
  · intro h1 h2
    simp only [parseStegoCommentsAppendix]
    rw [if_neg h1, if_pos h2]
    refine ⟨rfl, rfl, ?_⟩
    rcases Classical.em
      ((findTrimmedLineIndexes (splitLines body) stegoStartMarker).length = 1) with hs | hs
    · have he : (findTrimmedLineIndexes (splitLines body) stegoEndMarker).length ≠ 1 := by
        tauto
      rw [if_neg (not_not.mpr hs), if_pos he]
      exact ⟨makeIssue "error" "comments"
        ("Expected exactly one '" ++ stegoEndMarker ++ "' marker.") (some rp) none,
        by simp, rfl, rfl⟩
    · rw [if_pos hs]
      exact ⟨makeIssue "error" "comments"
        ("Expected exactly one '" ++ stegoStartMarker ++ "' marker.") (some rp) none,
        by simp, rfl, rfl⟩
  · intro hs he hle
    simp only [parseStegoCommentsAppendix]
    have h0 : ¬((findTrimmedLineIndexes (splitLines body) stegoStartMarker).length = 0 ∧
        (findTrimmedLineIndexes (splitLines body) stegoEndMarker).length = 0) := by
      intro hcon
      omega
    have hne : ¬((findTrimmedLineIndexes (splitLines body) stegoStartMarker).length ≠ 1 ∨
        (findTrimmedLineIndexes (splitLines body) stegoEndMarker).length ≠ 1) := by
      push_neg
      exact ⟨hs, he⟩
    rw [if_neg h0, if_neg hne, if_pos hle]
    refine ⟨rfl, rfl, ⟨makeIssue "error" "comments"
      ("'" ++ stegoEndMarker ++ "' must appear after '" ++ stegoStartMarker ++ "'.")
      (some rp) (some (n + (findTrimmedLineIndexes (splitLines body) stegoEndMarker).headD 0)),
      by simp, rfl, rfl⟩⟩

/-- Witness for C3: the three marker cases evaluated at concrete bodies:
a body without markers, a body with only the start marker, and a body
with the end marker before the start marker. -/
theorem stego_appendix_marker_cases_witness :
    (parseStegoCommentsAppendix (fun _ => none) (fun _ => none)
      "plain prose" "p.md" 1 = ⟨"plain prose", [], []⟩) ∧
    ((parseStegoCommentsAppendix (fun _ => none) (fun _ => none)
      "<!-- stego-comments:start -->" "p.md" 1).bodyWithoutComments =
        "<!-- stego-comments:start -->" ∧
     (parseStegoCommentsAppendix (fun _ => none) (fun _ => none)
      "<!-- stego-comments:start -->" "p.md" 1).comments = [] ∧
     ∃ i ∈ (parseStegoCommentsAppendix (fun _ => none) (fun _ => none)
      "<!-- stego-comments:start -->" "p.md" 1).issues,
        i.level = "error" ∧ i.category = "comments") ∧
    ((parseStegoCommentsAppendix (fun _ => none) (fun _ => none)
      "<!-- stego-comments:end -->\n<!-- stego-comments:start -->" "p.md" 1).bodyWithoutComments =
        "<!-- stego-comments:end -->\n<!-- stego-comments:start -->" ∧
     (parseStegoCommentsAppendix (fun _ => none) (fun _ => none)
      "<!-- stego-comments:end -->\n<!-- stego-comments:start -->" "p.md" 1).comments = [] ∧
     ∃ i ∈ (parseStegoCommentsAppendix (fun _ => none) (fun _ => none)
      "<!-- stego-comments:end -->\n<!-- stego-comments:start -->" "p.md" 1).issues,
        i.level = "error" ∧ i.category = "comments") :=
  ⟨(stego_appendix_marker_cases (fun _ => none) (fun _ => none)
      "plain prose" "p.md" 1).1 (by decide),
   (stego_appendix_marker_cases (fun _ => none) (fun _ => none)
      "<!-- stego-comments:start -->" "p.md" 1).2.1 (by decide) (by decide),
   (stego_appendix_marker_cases (fun _ => none) (fun _ => none)
      "<!-- stego-comments:end -->\n<!-- stego-comments:start -->" "p.md" 1).2.2
      (by decide) (by decide) (by decide)⟩

/-- Helper: when no line trims to the marker, the index scan is empty. -/
theorem findIdxAux_eq_nil (marker : String) (lines : List String)
    (h : ∀ l ∈ lines, trimStr l ≠ marker) : ∀ i, findIdxAux marker i lines = [] := by
  induction lines with
  | nil => intro i; rfl
  | cons l ls ih =>
    intro i
    have hl : ¬(trimStr l == marker) = true := by
      simpa using h l (List.mem_cons_self l ls)
    simp only [findIdxAux, hl, if_neg]
    exact ih (fun x hx => h x (List.mem_cons_of_mem l hx)) (i + 1)

/-- Helper: a body with no marker lines passes through the appendix
parser unchanged, with no comments and no issues. -/
theorem appendix_no_markers (b64 : String → Option String)
    (jp : String → Option JsonValue) (body rp : String) (n : Nat)
    (h : ∀ l ∈ splitLines body, trimStr l ≠ stegoStartMarker ∧ trimStr l ≠ stegoEndMarker) :
    parseStegoCommentsAppendix b64 jp body rp n = ⟨body, [], []⟩ := by
  have h1 : findTrimmedLineIndexes (splitLines body) stegoStartMarker = [] :=
    findIdxAux_eq_nil _ _ (fun l hl => (h l hl).1) 0
  have h2 : findTrimmedLineIndexes (splitLines body) stegoEndMarker = [] :=
    findIdxAux_eq_nil _ _ (fun l hl => (h l hl).2) 0
  simp only [parseStegoCommentsAppendix]
  rw [if_pos ⟨by rw [h1]; rfl, by rw [h2]; rfl⟩]

/-- C7: a project of exactly two documents sharing one filename order
key produces exactly one duplicate-order issue, of level error, whose
message names both relative paths; the filenames 100-a.md and 100-b.md
each parse to order key 100 without any issue. -/
theorem duplicate_order_two_documents (n : Nat) (p1 p2 : String) :
    detectDuplicateOrders [(some n, p1), (some n, p2)] =
      [makeIssue "error" "ordering"
        ("Duplicate filename order prefix '" ++ toString n ++ "' in " ++ p2 ++ " and " ++ p1)
        (some p2) none] ∧
    parseOrderFromFilename "100-a.md" "100-a.md" = (some 100, []) ∧
    parseOrderFromFilename "100-b.md" "100-b.md" = (some 100, []) := by
  refine ⟨?_, by decide, by decide⟩
  simp [detectDuplicateOrders, duplicateOrderScanLoop, List.find?]

/-- Witness for C7 at the spec's two filenames and order key 100. -/
theorem duplicate_order_two_documents_witness :
    detectDuplicateOrders [(some 100, "100-a.md"), (some 100, "100-b.md")] =
      [makeIssue "error" "ordering"
        ("Duplicate filename order prefix '" ++ toString 100 ++ "' in " ++
          "100-b.md" ++ " and " ++ "100-a.md")
        (some "100-b.md") none] ∧
    parseOrderFromFilename "100-a.md" "100-a.md" = (some 100, []) ∧
    parseOrderFromFilename "100-b.md" "100-b.md" = (some 100, []) :=
  duplicate_order_two_documents 100 "100-a.md" "100-b.md"

/-- C9: order keys are parsed to integers and compared numerically:
007-a.md and 7-b.md both receive order key 7 (the second with only a
non-blocking style warning), and the pair is reported as one
duplicate-order error naming both paths. -/
theorem numeric_order_keys_compared_numerically :
    parseOrderFromFilename "007-a.md" "007-a.md" = (some 7, []) ∧
    (parseOrderFromFilename "7-b.md" "7-b.md").1 = some 7 ∧
    (parseOrderFromFilename "7-b.md" "7-b.md").2.all
      (fun i => i.level == "warning") = true ∧
    detectDuplicateOrders [(some 7, "007-a.md"), (some 7, "7-b.md")] =
      [makeIssue "error" "ordering"
        "Duplicate filename order prefix '7' in 7-b.md and 007-a.md"
        (some "7-b.md") none] := by
  decide

/-- C4 counterexample: the status value Open differs from both exact
strings open and resolved, yet the decoder accepts it without reporting
any issue (it trims and lowercases first), refuting the claim that any
status other than exactly open or resolved produces an error. -/
theorem status_exact_match_countercase :
    decodeCommentMeta64 (fun s => some s)
      (fun _ => some (.jobj [("status", .jstr "Open")]))
      "payload" "CMT-0001" "p.md" 3 = (some false, []) ∧
    ¬("Open" = "open" ∨ "Open" = "resolved") := by
  decide

/-- C4 amended: after trimming and lowercasing a string status (with any
non-string status treated as the empty string), a value that is neither
open nor resolved produces exactly one error issue and the decoder
fails, while resolved and open are accepted with the corresponding
resolved flag and no issue. -/
theorem status_normalized_match (b64 : String → Option String)
    (jp : String → Option JsonValue) (enc id rp : String) (ln : Nat)
    (raw : String) (fields : List (String × JsonValue))
    (h1 : b64 enc = some raw) (h2 : jp raw = some (.jobj fields))
    (h3 : fields.find? (fun kv => !(["status", "anchor", "paragraph_index",
      "signature", "excerpt"].contains kv.1)) = none) :
    ((match jsonField fields "status" with
      | some (.jstr s) => lowerStr (trimStr s)
      | _ => "") ≠ "open" ∧
     (match jsonField fields "status" with
      | some (.jstr s) => lowerStr (trimStr s)
      | _ => "") ≠ "resolved" →
      decodeCommentMeta64 b64 jp enc id rp ln =
        (none, [makeIssue "error" "comments"
          ("meta64 for comment " ++ id ++
            " must include status 'open' or 'resolved'.")
          (some rp) (some ln)])) ∧
    ((match jsonField fields "status" with
      | some (.jstr s) => lowerStr (trimStr s)
      | _ => "") = "resolved" →
      decodeCommentMeta64 b64 jp enc id rp ln = (some true, [])) ∧
    ((match jsonField fields "status" with
      | some (.jstr s) => lowerStr (trimStr s)
      | _ => "") = "open" →
      decodeCommentMeta64 b64 jp enc id rp ln = (some false, [])) := by
  simp only [decodeCommentMeta64, h1, h2, h3, isPlainObject, Bool.not_true,
    Bool.false_eq_true, if_false]
  refine ⟨?_, ?_, ?_⟩
  · intro h
    rw [if_pos h]
  · intro h
    rw [if_neg (by rw [h]; simp), h]
    simp
  · intro h
    rw [if_neg (by rw [h]; simp), h]
    simp

/-- Witness for C4 amended: an invalid status (maybe) errors and fails,
a padded capitalized Resolved is accepted as resolved, and open is
accepted as open. -/
theorem status_normalized_match_witness :
    decodeCommentMeta64 (fun s => some s)
      (fun _ => some (.jobj [("status", .jstr "maybe")])) "x" "CMT-0001" "p.md" 2 =
      (none, [makeIssue "error" "comments"
        ("meta64 for comment " ++ "CMT-0001" ++
          " must include status 'open' or 'resolved'.")
        (some "p.md") (some 2)]) ∧
    decodeCommentMeta64 (fun s => some s)
      (fun _ => some (.jobj [("status", .jstr " Resolved ")])) "x" "CMT-0001" "p.md" 2 =
      (some true, []) ∧
    decodeCommentMeta64 (fun s => some s)
      (fun _ => some (.jobj [("status", .jstr "open")])) "x" "CMT-0001" "p.md" 2 =
      (some false, []) :=
  ⟨(status_normalized_match (fun s => some s)
      (fun _ => some (.jobj [("status", .jstr "maybe")])) "x" "CMT-0001" "p.md" 2
      "x" [("status", .jstr "maybe")] rfl rfl rfl).1 (by decide),
   (status_normalized_match (fun s => some s)
      (fun _ => some (.jobj [("status", .jstr " Resolved ")])) "x" "CMT-0001" "p.md" 2
      "x" [("status", .jstr " Resolved ")] rfl rfl rfl).2.1 (by decide),
   (status_normalized_match (fun s => some s)
      (fun _ => some (.jobj [("status", .jstr "open")])) "x" "CMT-0001" "p.md" 2
      "x" [("status", .jstr "open")] rfl rfl rfl).2.2 (by decide)⟩

/-- C8 counterexample: a document that does not open with the header
delimiter but contains a lone appendix start marker parses (header not
mandatory) to a result with a nonempty issue list, refuting the claim
that such documents never produce an error. -/
theorem no_delimiter_never_error_countercase :
    (parseMetadata (fun _ => none) (fun _ => none)
      "<!-- stego-comments:start -->" "p.md" false).issues ≠ [] ∧
    startsWithStr "<!-- stego-comments:start -->" "---\n" = false := by
  decide

/-- C8 amended: without an opening header delimiter and with the header
not mandatory, parsing always yields an empty header map, and when the
text contains no comment-appendix marker lines the result is exactly the
original text as body with no comments and no issues. -/
theorem parse_metadata_no_delimiter (b64 : String → Option String)
    (jp : String → Option JsonValue) (raw rp : String)
    (h1 : startsWithStr raw "---\n" = false)
    (h2 : startsWithStr raw "---\r\n" = false) :
    (parseMetadata b64 jp raw rp false).metadata = [] ∧
    ((∀ l ∈ splitLines raw, trimStr l ≠ stegoStartMarker ∧ trimStr l ≠ stegoEndMarker) →
      parseMetadata b64 jp raw rp false = ⟨[], raw, [], []⟩) := by
  simp only [parseMetadata, h1, h2, Bool.not_false, Bool.false_eq_true, and_self, if_true]
  constructor
  · trivial
  · intro h
    rw [appendix_no_markers b64 jp raw rp 1 h]

/-- Witness for C8 amended at a marker-free document. -/
theorem parse_metadata_no_delimiter_witness :
    (parseMetadata (fun _ => none) (fun _ => none)
      "No header here." "p.md" false).metadata = [] ∧
    parseMetadata (fun _ => none) (fun _ => none)
      "No header here." "p.md" false = ⟨[], "No header here.", [], []⟩ :=
  ⟨(parse_metadata_no_delimiter (fun _ => none) (fun _ => none)
      "No header here." "p.md" (by decide) (by decide)).1,
   (parse_metadata_no_delimiter (fun _ => none) (fun _ => none)
      "No header here." "p.md" (by decide) (by decide)).2 (by decide)⟩

/-- C2 counterexample: with one grouping level in between-groups mode
and a single document whose level changes (its changed flag is true), the
run emits zero page-break markers while the number of documents with a
page-break-enabled level change is one, refuting the claimed equality. -/
theorem page_break_count_countercase :
    ((buildManuscriptObs
        [⟨"chapter", "Chapter", none, false, "{label} {value}: {title}", "between-groups"⟩]
        [⟨"a.md", "a", some 100, "draft", [("chapter", "1")], [], "Body"⟩]).countP
      (fun o => ((([⟨"chapter", "Chapter", none, false, "{label} {value}: {title}", "between-groups"⟩] :
          List CompileStructureLevel).zip o.changedFlags).any
        (fun p => p.1.pageBreak == "between-groups" && p.2)))) = 1 ∧
    ((buildManuscriptLines "TS" "Title" "" ""
        [⟨"chapter", "Chapter", none, false, "{label} {value}: {title}", "between-groups"⟩]
        [⟨"a.md", "a", some 100, "draft", [("chapter", "1")], [], "Body"⟩]).countP
      (fun l => l == "\\newpage")) = 0 := by
  decide

/-- Helper: through the per-thread row loop, a resolved flag of true can
only arise from a successful metadata decode with status resolved. -/
theorem threadRowsLoop_resolved_true (b64 : String → Option String)
    (jp : String → Option JsonValue) (id rp : String) :
    ∀ (fuel : Nat) (rows : List (String × Nat)) (st : ThreadScanState),
    (st.resolved = some true →
      ∃ payload ln, (decodeCommentMeta64 b64 jp payload id rp ln).1 = some true) →
    (threadRowsLoop b64 jp id rp fuel rows st).1.resolved = some true →
    ∃ payload ln, (decodeCommentMeta64 b64 jp payload id rp ln).1 = some true := by
  intro fuel
  induction fuel with
  | zero =>
    intro rows st hP
    cases rows with
    | nil => simpa [threadRowsLoop] using hP
    | cons r rest => simpa [threadRowsLoop] using hP
  | succ fuel ih =>
    intro rows st hP
    cases rows with
    | nil => simpa [threadRowsLoop] using hP
    | cons r rest =>
      simp only [threadRowsLoop]
      by_cases hblank : (trimStr r.1 == "") = true
      · simp only [hblank, if_true]
        exact ih rest st hP
      · simp only [hblank, if_false]
        by_cases hthread : (!st.thread.isEmpty) = true
        · simp only [hthread, if_true]
          exact hP
        · simp only [hthread, if_false]
          by_cases hmeta : (!st.sawMeta64) = true
          · simp only [hmeta, if_true]
            rcases hm : matchMeta64Row (trimStr r.1) with _ | payload
            · simp only [hm]
              exact ih rest st hP
            · simp only [hm]
              refine ih rest _ ?_
              intro hres
              rcases hdec : (decodeCommentMeta64 b64 jp payload id rp r.2).1 with _ | b
              · simp only [hdec] at hres
                exact hP hres
              · simp only [hdec] at hres
                exact ⟨payload, r.2, by rw [hdec, Option.some_inj.mp hres]⟩
          · simp only [hmeta, if_false]
            rcases hq : extractQuotedLine r.1 with _ | q
            · simp only [hq]
              exact ih rest st hP
            · simp only [hq]
              rcases hh : parseThreadHeader q with _ | hdr
              · simp only [hh]
                exact ih rest st hP
              · simp only [hh]
                by_cases hmsgs : (popTrailingBlanks (collectMessageRows rp (skipSeparatorRows rest) []).1).isEmpty = true
                · simp only [hmsgs, if_true]
                  exact ih _ st hP
                · simp only [hmsgs, if_false]
                  exact ih _ _ hP

/-- Helper: every thread emitted by the outer thread loop with a true
resolved flag has a payload that decoded to resolved. -/
theorem commentThreadsLoop_resolved_true (b64 : String → Option String)
    (jp : String → Option JsonValue) (rp : String) (bl : Nat) :
    ∀ (fuel index : Nat) (ls : List String),
    ∀ t ∈ (commentThreadsLoop b64 jp rp bl fuel index ls).1,
      t.resolved = true →
      ∃ payload ln, (decodeCommentMeta64 b64 jp payload t.id rp ln).1 = some true := by
  intro fuel
  induction fuel with
  | zero =>
    intro index ls t ht
    cases ls with
    | nil => simp [commentThreadsLoop] at ht
    | cons l ls2 => simp [commentThreadsLoop] at ht
  | succ fuel ih =>
    intro index ls t ht htrue
    cases ls with
    | nil => simp [commentThreadsLoop] at ht
    | cons l ls2 =>
      simp only [commentThreadsLoop] at ht
      by_cases hblank : (trimStr l == "") = true
      · simp only [hblank, if_true] at ht
        exact ih (index + 1) ls2 t ht htrue
      · simp only [hblank, if_false] at ht
        rcases hm : matchCmtHeading (trimStr l) with _ | id2
        · simp only [hm] at ht
          exact ih (index + 1) ls2 t ht htrue
        · simp only [hm] at ht
          rcases List.mem_cons.mp ht with h | h
          · subst h
            simp only at htrue
            by_cases hsaw : (threadRowsLoop b64 jp id2 rp
                (numberRows (bl + index + 1)
                  (ls2.takeWhile (fun x => !(isCmtHeading (trimStr x))))).length
                (numberRows (bl + index + 1)
                  (ls2.takeWhile (fun x => !(isCmtHeading (trimStr x)))))
                ⟨none, false, []⟩).1.sawMeta64 = true
            · simp only [hsaw, if_true] at htrue
              have hgetD : ∀ (o : Option Bool), o.getD false = true → o = some true := by
                intro o ho
                cases o with
                | none => simp at ho
                | some b => simpa using ho
              have hres := hgetD _ htrue
              exact threadRowsLoop_resolved_true b64 jp id2 rp _ _ _
                (by intro hcon; simp at hcon) hres
            · simp only [hsaw, if_false] at htrue
              simp at htrue
          · exact ih (index + 1 +
              (ls2.takeWhile (fun x => !(isCmtHeading (trimStr x)))).length)
              (ls2.dropWhile (fun x => !(isCmtHeading (trimStr x)))) t h htrue

/-- C10: every comment thread emitted by the appendix parser whose
resolved flag is true has a meta64 payload that decoded successfully to
status resolved; contrapositively, a thread without a successfully
decoded and validated payload — missing metadata row, undecodable
payload, invalid JSON, non-object, unsupported key, or invalid status —
has resolved = false and is treated as open.  Quantified over every
behavior of the base64url decoding and JSON parsing runtime functions. -/
theorem threads_without_valid_meta_are_open (b64 : String → Option String)
    (jp : String → Option JsonValue) (lines : List String) (rp : String)
    (n : Nat) (t : ParsedCommentThread)
    (ht : t ∈ (parseStegoCommentThreads b64 jp lines rp n).1)
    (htrue : t.resolved = true) :
    ∃ payload ln, (decodeCommentMeta64 b64 jp payload t.id rp ln).1 = some true :=
  commentThreadsLoop_resolved_true b64 jp rp n lines.length 0 lines t ht htrue

/-- Witness for C10: a concrete thread with a successfully decoded
resolved payload, produced by concrete decoding functions. -/
theorem threads_without_valid_meta_are_open_witness :
    ∃ payload ln, (decodeCommentMeta64 (fun s => some s)
      (fun s => if s = "RJ" then some (.jobj [("status", .jstr "resolved")]) else none)
      payload "CMT-0001" "p.md" ln).1 = some true :=
  threads_without_valid_meta_are_open (fun s => some s)
    (fun s => if s = "RJ" then some (.jobj [("status", .jstr "resolved")]) else none)
    ["### CMT-0001", "<!-- meta64: RJ -->", "> _t | a_", "> hi"] "p.md" 1
    ⟨"CMT-0001", true, ["t | a | hi"]⟩ (by decide) rfl

/-- Helper: the first element surviving dropWhile fails the predicate. -/
theorem dropWhile_head_false {p : Char → Bool} :
    ∀ (cs : List Char) (c : Char) (rest : List Char),
    cs.dropWhile p = c :: rest → p c = false := by
  intro cs
  induction cs with
  | nil => intro c rest h; simp at h
  | cons a l ih =>
    intro c rest h
    by_cases hp : p a = true
    · rw [List.dropWhile_cons, if_pos hp] at h
      exact ih c rest h
    · rw [List.dropWhile_cons, if_neg hp] at h
      cases h
      simpa using hp

/-- Helper: a fully blank character list has no non-whitespace head. -/
theorem trimChars_eq_nil_dropWhile {cs : List Char} (h : trimChars cs = []) :
    cs.dropWhile isWs = [] := by
  unfold trimChars at h
  have h2 : (cs.dropWhile isWs).reverse.dropWhile isWs = [] := by
    have := congrArg List.reverse h
    simpa using this
  rcases hd : cs.dropWhile isWs with _ | ⟨c, rest⟩
  · rfl
  · exfalso
    have hcw : isWs c = false := dropWhile_head_false cs c rest hd
    have hall : ∀ x ∈ (cs.dropWhile isWs).reverse, isWs x := by
      rw [List.dropWhile_eq_nil_iff] at h2
      exact h2
    have hcmem : c ∈ (cs.dropWhile isWs).reverse := by
      rw [hd]
      simp
    rw [hall c hcmem] at hcw
    exact Bool.true_eq_false.mp hcw

/-- Helper: a line with a blockquote marker does not trim to empty. -/
theorem extractQuotedLine_trim_ne_blank {raw q : String}
    (h : extractQuotedLine raw = some q) : (trimStr raw == "") = false := by
  by_cases hb : (trimStr raw == "") = true
  · exfalso
    have htr : trimChars raw.data = [] := by
      have : trimStr raw = "" := eq_of_beq hb
      have := congrArg String.data this
      simpa [trimStr] using this
    have hdw := trimChars_eq_nil_dropWhile htr
    unfold extractQuotedLine at h
    rw [hdw] at h
    simp at h
  · simpa using hb

/-- Helper: a line matching the metadata-row pattern is not empty. -/
theorem matchMeta64Row_trim_ne_blank {t : String} {payload : String}
    (h : matchMeta64Row t = some payload) : (t == "") = false := by
  by_cases hb : (t == "") = true
  · have : t = "" := eq_of_beq hb
    rw [this] at h
    simp [matchMeta64Row] at h
  · simpa using hb

/-- Helper: a line matching the heading pattern is not empty. -/
theorem matchCmtHeading_trim_ne_blank {t : String} {id : String}
    (h : matchCmtHeading t = some id) : (t == "") = false := by
  by_cases hb : (t == "") = true
  · have : t = "" := eq_of_beq hb
    rw [this] at h
    simp [matchCmtHeading] at h
  · simpa using hb

/-- Helper: takeWhile keeps a list all of whose elements satisfy the predicate. -/
theorem takeWhile_all {α : Type} {p : α → Bool} :
    ∀ (l : List α), (∀ x ∈ l, p x = true) → l.takeWhile p = l := by
  intro l
  induction l with
  | nil => intro _; rfl
  | cons a l2 ih =>
    intro h
    rw [List.takeWhile_cons, if_pos (h a (List.mem_cons_self a l2))]
    rw [ih (fun x hx => h x (List.mem_cons_of_mem a hx))]

/-- Helper: dropWhile empties a list all of whose elements satisfy the predicate. -/
theorem dropWhile_all {α : Type} {p : α → Bool} :
    ∀ (l : List α), (∀ x ∈ l, p x = true) → l.dropWhile p = [] := by
  intro l
  induction l with
  | nil => intro _; rfl
  | cons a l2 ih =>
    intro h
    rw [List.dropWhile_cons, if_pos (h a (List.mem_cons_self a l2))]
    exact ih (fun x hx => h x (List.mem_cons_of_mem a hx))

/-- Helper: line numbering distributes over list append. -/
theorem numberRows_append : ∀ (l1 : List String) (k : Nat) (l2 : List String),
    numberRows k (l1 ++ l2) = numberRows k l1 ++ numberRows (k + l1.length) l2 := by
  intro l1
  induction l1 with
  | nil => intro k l2; simp [numberRows]
  | cons a l ih =>
    intro k l2
    show (a, k) :: numberRows (k + 1) (l ++ l2) =
      ((a, k) :: numberRows (k + 1) l) ++ numberRows (k + (a :: l).length) l2
    rw [ih (k + 1) l2]
    have harith : k + 1 + l.length = k + (a :: l).length := by
      simp [List.length_cons]
      omega
    rw [harith]
    rfl

/-- C5 counterexample: a block with two thread-header lines under one
heading where no message line separates them: the parser reports a
missing-message error instead of a multiple-message error (zero
multiple-message issues) and the emitted thread records the second
message, refuting the claim for such blocks. -/
theorem single_message_error_countercase :
    ((parseStegoCommentThreads (fun s => some s)
        (fun s => if s = "OJ" then some (.jobj [("status", .jstr "open")]) else none)
        ["### CMT-0001", "<!-- meta64: OJ -->", "> _t1 | a_", "> _t2 | b_", "> hello"]
        "p.md" 1).2.countP
      (fun i => i.message ==
        ("Multiple message blocks found for " ++ "CMT-0001" ++
          ". Create a new CMT id for each reply."))) = 0 ∧
    (parseStegoCommentThreads (fun s => some s)
        (fun s => if s = "OJ" then some (.jobj [("status", .jstr "open")]) else none)
        ["### CMT-0001", "<!-- meta64: OJ -->", "> _t1 | a_", "> _t2 | b_", "> hello"]
        "p.md" 1).1 = [⟨"CMT-0001", false, ["t2 | b | hello"]⟩] ∧
    ((extractQuotedLine "> _t1 | a_").bind parseThreadHeader).isSome = true ∧
    ((extractQuotedLine "> _t2 | b_").bind parseThreadHeader).isSome = true := by
  decide

/-- Helper: strings with different first characters are different. -/
theorem str_ne_of_data_head {s t : String} (h : s.data.head? ≠ t.data.head?) :
    s ≠ t :=
  fun he => h (congrArg (fun z => z.data.head?) he)

/-- Helper: no issue of the metadata decoder carries the multiple-message-blocks message. -/
theorem decode_issues_not_multi (b64 : String → Option String)
    (jp : String → Option JsonValue) (payload id rp : String) (ln : Nat) :
    ∀ i ∈ (decodeCommentMeta64 b64 jp payload id rp ln).2,
      (i.message == ("Multiple message blocks found for " ++ id ++
        ". Create a new CMT id for each reply.")) = false := by
  intro i hi
  simp only [decodeCommentMeta64] at hi
  repeat' split at hi
  all_goals try simp at hi
  all_goals
    subst hi
    rw [beq_eq_false_iff_ne]
    first
    | exact str_ne_of_data_head (show some 'I' ≠ some 'M' by decide)
    | exact str_ne_of_data_head (show some 'm' ≠ some 'M' by decide)

/-- Helper: the separator skip leaves a list starting with a nonblank quoted row unchanged. -/
theorem skipSeparatorRows_nonblank (r : String × Nat) (rest : List (String × Nat))
    (q : String) (hq : extractQuotedLine r.1 = some q) (hqe : trimStr q ≠ "") :
    skipSeparatorRows (r :: rest) = r :: rest := by
  simp only [skipSeparatorRows, extractQuotedLine_trim_ne_blank hq, Bool.false_eq_true,
    if_false, hq]
  rw [if_neg (by simpa using hqe)]

/-- Helper: popping trailing blanks leaves a list of nonblank lines unchanged. -/
theorem popTrailingBlanks_of_nonblank (l : List String)
    (h : ∀ x ∈ l, (trimStr x == "") = false) : popTrailingBlanks l = l := by
  unfold popTrailingBlanks
  rcases hr : l.reverse with _ | ⟨a, rest⟩
  · have : l = [] := by simpa using congrArg List.reverse hr
    rw [this]
    rfl
  · have ha : a ∈ l := by
      have : a ∈ l.reverse := by rw [hr]; simp
      simpa using this
    rw [List.dropWhile_cons, if_neg (by simp [h a ha])]
    rw [← hr]
    simp

/-- Helper: message collection gathers the quoted contents of nonblank non-header rows and stops, without consuming, at a row whose quote parses as a thread header. -/
theorem collectMessageRows_until_header (rp : String) (r : String × Nat)
    (tail : List (String × Nat)) (q2 : String) (hdr2 : String × String)
    (hq2 : extractQuotedLine r.1 = some q2) (hh2 : parseThreadHeader q2 = some hdr2) :
    ∀ (msgs : List ((String × Nat) × String)) (acc : List String),
    (∀ m ∈ msgs, extractQuotedLine m.1.1 = some m.2 ∧ trimStr m.2 ≠ "" ∧
      parseThreadHeader m.2 = none) →
    collectMessageRows rp (msgs.map Prod.fst ++ r :: tail) acc =
      (acc ++ msgs.map Prod.snd, r :: tail, []) := by
  intro msgs
  induction msgs with
  | nil =>
    intro acc hmq
    simp only [List.map_nil, List.nil_append]
    simp only [collectMessageRows, extractQuotedLine_trim_ne_blank hq2,
      Bool.false_eq_true, if_false, hq2, hh2]
    simp
  | cons m ms ih =>
    intro acc hmq
    rcases hmq m (List.mem_cons_self m ms) with ⟨hq, hnb, hnh⟩
    simp only [List.map_cons, List.cons_append]
    simp only [collectMessageRows, extractQuotedLine_trim_ne_blank hq,
      Bool.false_eq_true, if_false, hq, hnh]
    simp only [Option.isSome_none, Bool.false_eq_true, if_false]
    rw [ih (acc ++ [m.2]) (fun x hx => hmq x (List.mem_cons_of_mem m hx))]
    simp

/-- Helper: the resolved-update match is the identity when the previous value is none. -/
theorem opt_bool_match_id (o : Option Bool) :
    (match o with | some b => some b | none => (none : Option Bool)) = o := by
  cases o <;> rfl



/-- Helper: the per-thread row loop on a metadata row, a complete first message block, and a second header row: it records exactly the first message and stops at the second header with one multiple-message-blocks issue. -/
theorem threadRowsLoop_two_message_blocks (b64 : String → Option String)
    (jp : String → Option JsonValue) (id rp : String) (f k1 k2 k3 : Nat)
    (metaRow h1 h2 payload q1 q2 ts1 a1 : String) (hdr2 : String × String)
    (msgs : List ((String × Nat) × String))
    (hmeta : matchMeta64Row (trimStr metaRow) = some payload)
    (hq1 : extractQuotedLine h1 = some q1)
    (hh1 : parseThreadHeader q1 = some (ts1, a1))
    (hq2 : extractQuotedLine h2 = some q2)
    (hh2 : parseThreadHeader q2 = some hdr2)
    (hne : msgs ≠ [])
    (hmq : ∀ m ∈ msgs, extractQuotedLine m.1.1 = some m.2 ∧ trimStr m.2 ≠ "" ∧
      parseThreadHeader m.2 = none) :
    threadRowsLoop b64 jp id rp (f + 3)
      ((metaRow, k1) :: ((h1, k2) :: (msgs.map Prod.fst ++ [(h2, k3)])))
      ⟨none, false, []⟩ =
    (⟨(decodeCommentMeta64 b64 jp payload id rp k1).1, true,
      [ts1 ++ " | " ++ a1 ++ " | " ++
        trimStr (joinWith "\n" (msgs.map Prod.snd))]⟩,
     (decodeCommentMeta64 b64 jp payload id rp k1).2 ++
       [makeIssue "error" "comments"
         ("Multiple message blocks found for " ++ id ++
           ". Create a new CMT id for each reply.")
         (some rp) (some k3)]) := by
  rcases hcons : msgs with _ | ⟨m0, mrest⟩
  · exact absurd hcons hne
  rw [← hcons]
  have hmsgs_pop : popTrailingBlanks (msgs.map Prod.snd) = msgs.map Prod.snd := by
    refine popTrailingBlanks_of_nonblank _ ?_
    intro x hx
    rcases List.mem_map.mp hx with ⟨m, hm, hmx⟩
    rcases hmq m hm with ⟨_, hnb, _⟩
    subst hmx
    simpa using hnb
  have hskip : skipSeparatorRows (msgs.map Prod.fst ++ [(h2, k3)]) =
      msgs.map Prod.fst ++ [(h2, k3)] := by
    rw [hcons]
    simp only [List.map_cons, List.cons_append]
    rcases hmq m0 (by rw [hcons]; exact List.mem_cons_self m0 mrest) with ⟨hq0, hnb0, _⟩
    exact skipSeparatorRows_nonblank m0.1 _ m0.2 hq0 hnb0
  have hcollect : collectMessageRows rp (msgs.map Prod.fst ++ [(h2, k3)]) [] =
      (msgs.map Prod.snd, [(h2, k3)], []) := by
    have := collectMessageRows_until_header rp (h2, k3) [] q2 hdr2 hq2 hh2 msgs [] hmq
    simpa using this
  have hnonempty : (msgs.map Prod.snd).isEmpty = false := by
    rw [hcons]
    simp
  rcases hdec : (decodeCommentMeta64 b64 jp payload id rp k1).1 with _ | b <;>
    simp only [threadRowsLoop, matchMeta64Row_trim_ne_blank hmeta, Bool.false_eq_true,
      if_false, List.isEmpty_nil, List.isEmpty_cons, Bool.not_true, Bool.not_false,
      if_true, hmeta, hdec,
      extractQuotedLine_trim_ne_blank hq1, hq1, hh1, hskip, hcollect, hmsgs_pop,
      hnonempty, extractQuotedLine_trim_ne_blank hq2, hq2, hh2] <;>
    simp

/-- Proof-side pairing of message lines with their line numbers and quoted contents. -/
def pairRows (k : Nat) : List (String × String) → List ((String × Nat) × String)
  | [] => []
  | m :: rest => ((m.1, k), m.2) :: pairRows (k + 1) rest

/-- Helper: first projections of the pairing are the numbered rows. -/
theorem pairRows_map_fst (msgs : List (String × String)) :
    ∀ k, (pairRows k msgs).map Prod.fst = numberRows k (msgs.map Prod.fst) := by
  induction msgs with
  | nil => intro k; rfl
  | cons m rest ih => intro k; simp [pairRows, numberRows, ih (k + 1)]

/-- Helper: second projections of the pairing are the quoted contents. -/
theorem pairRows_map_snd (msgs : List (String × String)) :
    ∀ k, (pairRows k msgs).map Prod.snd = msgs.map Prod.snd := by
  induction msgs with
  | nil => intro k; rfl
  | cons m rest ih => intro k; simp [pairRows, ih (k + 1)]

/-- Helper: pairing preserves nonemptiness. -/
theorem pairRows_ne_nil {msgs : List (String × String)} (h : msgs ≠ []) (k : Nat) :
    pairRows k msgs ≠ [] := by
  cases msgs with
  | nil => exact absurd rfl h
  | cons m rest => simp [pairRows]

/-- Helper: members of the pairing project to members of the message list. -/
theorem pairRows_mem {msgs : List (String × String)} :
    ∀ {k : Nat} {m : (String × Nat) × String}, m ∈ pairRows k msgs →
      (m.1.1, m.2) ∈ msgs := by
  induction msgs with
  | nil => intro k m h; simp [pairRows] at h
  | cons a rest ih =>
    intro k m h
    rcases List.mem_cons.mp h with h | h
    · subst h; simp
    · exact List.mem_cons_of_mem a (ih h)

/-- Helper: pairing preserves length. -/
theorem pairRows_length (msgs : List (String × String)) :
    ∀ k, (pairRows k msgs).length = msgs.length := by
  induction msgs with
  | nil => intro k; rfl
  | cons m rest ih => intro k; simp [pairRows, ih (k + 1)]

/-- C5 amended: for every appendix block consisting of one thread
heading, a metadata row, a first blockquote header followed by one or
more nonblank non-header blockquote message lines, and a second
blockquote header line, parsing emits the thread with only the first
message recorded and produces exactly one multiple-message-blocks
error. -/
theorem single_message_per_thread (b64 : String → Option String)
    (jp : String → Option JsonValue) (rp : String) (n : Nat)
    (heading metaRow h1 h2 id payload q1 q2 ts1 a1 : String)
    (hdr2 : String × String) (msgs : List (String × String))
    (hhead : matchCmtHeading (trimStr heading) = some id)
    (hmeta : matchMeta64Row (trimStr metaRow) = some payload)
    (hq1 : extractQuotedLine h1 = some q1)
    (hh1 : parseThreadHeader q1 = some (ts1, a1))
    (hq2 : extractQuotedLine h2 = some q2)
    (hh2 : parseThreadHeader q2 = some hdr2)
    (hne : msgs ≠ [])
    (hmq : ∀ m ∈ msgs, extractQuotedLine m.1 = some m.2 ∧ trimStr m.2 ≠ "" ∧
      parseThreadHeader m.2 = none)
    (hnh : ∀ l ∈ metaRow :: h1 :: h2 :: msgs.map Prod.fst,
      isCmtHeading (trimStr l) = false) :
    parseStegoCommentThreads b64 jp
      (heading :: metaRow :: h1 :: (msgs.map Prod.fst ++ [h2])) rp n =
    ([⟨id, ((decodeCommentMeta64 b64 jp payload id rp (n + 1)).1).getD false,
       [ts1 ++ " | " ++ a1 ++ " | " ++
         trimStr (joinWith "\n" (msgs.map Prod.snd))]⟩],
     (decodeCommentMeta64 b64 jp payload id rp (n + 1)).2 ++
       [makeIssue "error" "comments"
         ("Multiple message blocks found for " ++ id ++
           ". Create a new CMT id for each reply.")
         (some rp) (some (n + 3 + msgs.length))]) ∧
    ((parseStegoCommentThreads b64 jp
        (heading :: metaRow :: h1 :: (msgs.map Prod.fst ++ [h2])) rp n).2.countP
      (fun i => i.message == ("Multiple message blocks found for " ++ id ++
        ". Create a new CMT id for each reply.")) = 1) := by
  have hmem : ∀ x ∈ metaRow :: h1 :: (msgs.map Prod.fst ++ [h2]),
      (fun y => !(isCmtHeading (trimStr y))) x = true := by
    intro x hx
    have hx2 : x ∈ metaRow :: h1 :: h2 :: msgs.map Prod.fst := by
      simp only [List.mem_cons, List.mem_append, List.mem_singleton] at hx ⊢
      tauto
    simp [hnh x hx2]
  have htake : (metaRow :: h1 :: (msgs.map Prod.fst ++ [h2])).takeWhile
      (fun y => !(isCmtHeading (trimStr y))) =
      metaRow :: h1 :: (msgs.map Prod.fst ++ [h2]) := takeWhile_all _ hmem
  have hdrop : (metaRow :: h1 :: (msgs.map Prod.fst ++ [h2])).dropWhile
      (fun y => !(isCmtHeading (trimStr y))) = [] := dropWhile_all _ hmem
  have hrows : numberRows (n + 0 + 1) (metaRow :: h1 :: (msgs.map Prod.fst ++ [h2])) =
      (metaRow, n + 1) :: ((h1, n + 2) ::
        ((pairRows (n + 3) msgs).map Prod.fst ++ [(h2, n + 3 + msgs.length)])) := by
    simp [numberRows, numberRows_append, pairRows_map_fst]
  have hlen : ((metaRow, n + 1) :: ((h1, n + 2) ::
      ((pairRows (n + 3) msgs).map Prod.fst ++ [(h2, n + 3 + msgs.length)]))).length =
      msgs.length + 3 := by
    simp [pairRows_length]
  have hmq2 : ∀ m ∈ pairRows (n + 3) msgs,
      extractQuotedLine m.1.1 = some m.2 ∧ trimStr m.2 ≠ "" ∧
      parseThreadHeader m.2 = none := by
    intro m hm
    exact hmq (m.1.1, m.2) (pairRows_mem hm)
  have hmain := threadRowsLoop_two_message_blocks b64 jp id rp msgs.length
    (n + 1) (n + 2) (n + 3 + msgs.length) metaRow h1 h2 payload q1 q2 ts1 a1 hdr2
    (pairRows (n + 3) msgs) hmeta hq1 hh1 hq2 hh2 (pairRows_ne_nil hne (n + 3)) hmq2
  rw [pairRows_map_snd] at hmain
  have hfirst : parseStegoCommentThreads b64 jp
      (heading :: metaRow :: h1 :: (msgs.map Prod.fst ++ [h2])) rp n =
    ([⟨id, ((decodeCommentMeta64 b64 jp payload id rp (n + 1)).1).getD false,
       [ts1 ++ " | " ++ a1 ++ " | " ++
         trimStr (joinWith "\n" (msgs.map Prod.snd))]⟩],
     (decodeCommentMeta64 b64 jp payload id rp (n + 1)).2 ++
       [makeIssue "error" "comments"
         ("Multiple message blocks found for " ++ id ++
           ". Create a new CMT id for each reply.")
         (some rp) (some (n + 3 + msgs.length))]) := by
    simp only [parseStegoCommentThreads, List.length_cons, commentThreadsLoop,
      matchCmtHeading_trim_ne_blank hhead, Bool.false_eq_true, if_false, hhead,
      htake, hdrop, hrows, hlen, hmain]
    simp
  refine ⟨hfirst, ?_⟩
  rw [hfirst]
  simp only [List.countP_append]
  have hz : ((decodeCommentMeta64 b64 jp payload id rp (n + 1)).2).countP
      (fun i => i.message == ("Multiple message blocks found for " ++ id ++
        ". Create a new CMT id for each reply.")) = 0 := by
    rw [List.countP_eq_zero]
    intro a ha
    simp [decode_issues_not_multi b64 jp payload id rp (n + 1) a ha]
  rw [hz]
  simp [List.countP_cons, makeIssue]

/-- Witness for C5 amended: the two-message thread block evaluated
concretely; exactly one multiple-message-blocks error, first message
kept. -/
theorem single_message_per_thread_witness :
    parseStegoCommentThreads (fun s => some s)
      (fun s => if s = "OJ" then some (.jobj [("status", .jstr "open")]) else none)
      ["### CMT-0001", "<!-- meta64: OJ -->", "> _t1 | a_", "> first message", "> _t2 | b_"]
      "p.md" 1 =
    ([⟨"CMT-0001", false, ["t1 | a | first message"]⟩],
     [makeIssue "error" "comments"
       ("Multiple message blocks found for " ++ "CMT-0001" ++
         ". Create a new CMT id for each reply.") (some "p.md") (some 5)]) ∧
    ((parseStegoCommentThreads (fun s => some s)
      (fun s => if s = "OJ" then some (.jobj [("status", .jstr "open")]) else none)
      ["### CMT-0001", "<!-- meta64: OJ -->", "> _t1 | a_", "> first message", "> _t2 | b_"]
      "p.md" 1).2.countP
      (fun i => i.message == ("Multiple message blocks found for " ++ "CMT-0001" ++
        ". Create a new CMT id for each reply."))) = 1 := by
  have h := single_message_per_thread (fun s => some s)
    (fun s => if s = "OJ" then some (.jobj [("status", .jstr "open")]) else none)
    "p.md" 1 "### CMT-0001" "<!-- meta64: OJ -->" "> _t1 | a_" "> _t2 | b_"
    "CMT-0001" "OJ" "_t1 | a_" "_t2 | b_" "t1" "a" ("t2", "b")
    [("> first message", "first message")]
    (by decide) (by decide) (by decide) (by decide) (by decide) (by decide)
    (by decide) (by decide) (by decide)
  exact ⟨h.1.trans (by decide), h.2⟩

/-- Helper: splitting characters without newlines yields one line. -/
theorem splitLinesAux_clean :
    ∀ (cs acc : List Char), (∀ c ∈ cs, c ≠ '\n' ∧ c ≠ '\r') →
    splitLinesAux acc cs = [String.mk (acc.reverse ++ cs)] := by
  intro cs
  induction cs with
  | nil => intro acc h; simp [splitLinesAux]
  | cons c rest ih =>
    intro acc h
    rcases h c (List.mem_cons_self c rest) with ⟨hn, hr⟩
    have hstep : splitLinesAux acc (c :: rest) = splitLinesAux (c :: acc) rest := by
      rw [splitLinesAux.eq_def]
      split
      · simp_all
      · rename_i heq
        rw [List.cons_eq_cons] at heq
        exact absurd heq.1 hr
      · rename_i heq
        rw [List.cons_eq_cons] at heq
        exact absurd heq.1 hn
      · rename_i heq
        rw [List.cons_eq_cons] at heq
        rcases heq with ⟨h1, h2⟩
        subst h1
        subst h2
        rfl
    rw [hstep, ih (c :: acc) (fun x hx => h x (List.mem_cons_of_mem c hx))]
    simp

/-- Helper: splitting a clean line followed by a newline emits that line. -/
theorem splitLinesAux_break :
    ∀ (xd acc rest : List Char), (∀ c ∈ xd, c ≠ '\n' ∧ c ≠ '\r') →
    splitLinesAux acc (xd ++ '\n' :: rest) =
      String.mk (acc.reverse ++ xd) :: splitLinesAux [] rest := by
  intro xd
  induction xd with
  | nil =>
    intro acc rest h
    simp [splitLinesAux]
  | cons c tl ih =>
    intro acc rest h
    rcases h c (List.mem_cons_self c tl) with ⟨hn, hr⟩
    have hstep : splitLinesAux acc (c :: (tl ++ '\n' :: rest)) =
        splitLinesAux (c :: acc) (tl ++ '\n' :: rest) := by
      rw [splitLinesAux.eq_def]
      split
      · simp_all
      · rename_i heq
        rw [List.cons_eq_cons] at heq
        exact absurd heq.1 hr
      · rename_i heq
        rw [List.cons_eq_cons] at heq
        exact absurd heq.1 hn
      · rename_i heq
        rw [List.cons_eq_cons] at heq
        rcases heq with ⟨h1, h2⟩
        subst h1
        subst h2
        rfl
    rw [List.cons_append, hstep, ih (c :: acc) rest
      (fun x hx => h x (List.mem_cons_of_mem c hx))]
    simp

/-- A line free of newline and carriage-return characters. -/
def cleanLine (l : String) : Prop := ∀ c ∈ l.data, c ≠ '\n' ∧ c ≠ '\r'

/-- Helper: characters of a newline join of two or more lines. -/
theorem joinWith_newline_data (x : String) (y : String) (tl : List String) :
    (joinWith "\n" (x :: y :: tl)).data =
      x.data ++ '\n' :: (joinWith "\n" (y :: tl)).data := by
  show (x ++ "\n" ++ joinWith "\n" (y :: tl)).data = _
  rw [show (x ++ "\n" ++ joinWith "\n" (y :: tl)).data =
    (x.data ++ "\n".data) ++ (joinWith "\n" (y :: tl)).data from rfl]
  simp [String.data]

/-- Helper: splitting a newline join of clean lines recovers the lines. -/
theorem splitLines_joinWith :
    ∀ (ls : List String), ls ≠ [] → (∀ l ∈ ls, cleanLine l) →
    splitLines (joinWith "\n" ls) = ls := by
  intro ls
  induction ls with
  | nil => intro h; exact absurd rfl h
  | cons x tl ih =>
    intro _ hclean
    cases tl with
    | nil =>
      show splitLinesAux [] x.data = [x]
      rw [splitLinesAux_clean x.data []
        (fun c hc => hclean x (List.mem_cons_self x []) c hc)]
      simp
    | cons y tl2 =>
      show splitLinesAux [] (joinWith "\n" (x :: y :: tl2)).data = x :: y :: tl2
      rw [joinWith_newline_data]
      rw [splitLinesAux_break x.data []
        (joinWith "\n" (y :: tl2)).data
        (fun c hc => hclean x (List.mem_cons_self x (y :: tl2)) c hc)]
      have := ih (by simp) (fun l hl => hclean l (List.mem_cons_of_mem x hl))
      rw [show splitLinesAux [] (joinWith "\n" (y :: tl2)).data =
        splitLines (joinWith "\n" (y :: tl2)) from rfl, this]
      simp

/-- Helper: no carriage return means no CRLF pair. -/
theorem hasCRLF_false : ∀ (cs : List Char), (∀ c ∈ cs, c ≠ '\r') →
    hasCRLF cs = false := by
  intro cs
  induction cs with
  | nil => intro h; rfl
  | cons c rest ih =>
    intro h
    rw [hasCRLF.eq_def]
    split
    · rename_i heq
      rw [List.cons_eq_cons] at heq
      exact absurd heq.1 (h c (List.mem_cons_self c rest))
    · rename_i x xs heq
      rw [List.cons_eq_cons] at heq
      rcases heq with ⟨h1, h2⟩
      subst h2
      exact ih (fun d hd => h d (List.mem_cons_of_mem c hd))
    · rfl

/-- Helper: the first survivor of dropWhile fails the predicate, generic. -/
theorem dropWhile_head_false' {α : Type} (p : α → Bool) :
    ∀ (cs : List α) (c : α) (rest : List α),
    cs.dropWhile p = c :: rest → p c = false := by
  intro cs
  induction cs with
  | nil => intro c rest h; simp at h
  | cons a l ih =>
    intro c rest h
    by_cases hp : p a = true
    · rw [List.dropWhile_cons, if_pos hp] at h
      exact ih c rest h
    · rw [List.dropWhile_cons, if_neg hp] at h
      cases h
      simpa using hp

/-- Helper: the index scan distributes over append. -/
theorem findIdxAux_append (m : String) :
    ∀ (xs : List String) (i : Nat) (ys : List String),
    findIdxAux m i (xs ++ ys) = findIdxAux m i xs ++ findIdxAux m (i + xs.length) ys := by
  intro xs
  induction xs with
  | nil => intro i ys; simp [findIdxAux]
  | cons a tl ih =>
    intro i ys
    show findIdxAux m i (a :: (tl ++ ys)) = _
    by_cases ha : (trimStr a == m) = true
    · simp only [findIdxAux, ha, if_true, ih (i + 1) ys, List.cons_append,
        List.length_cons]
      have : i + 1 + tl.length = i + (tl.length + 1) := by omega
      rw [this]
    · simp only [findIdxAux, ha, if_false, Bool.false_eq_true, ih (i + 1) ys,
        List.length_cons]
      have : i + 1 + tl.length = i + (tl.length + 1) := by omega
      rw [this]

/-- Helper: scan results lie within the scanned range. -/
theorem findIdxAux_mem_bounds (m : String) :
    ∀ (xs : List String) (i : Nat) (j : Nat), j ∈ findIdxAux m i xs →
    i ≤ j ∧ j < i + xs.length := by
  intro xs
  induction xs with
  | nil => intro i j h; simp [findIdxAux] at h
  | cons a tl ih =>
    intro i j h
    by_cases ha : (trimStr a == m) = true
    · simp only [findIdxAux, ha, if_true] at h
      rcases List.mem_cons.mp h with h | h
      · subst h; simp
      · have := ih (i + 1) j h
        constructor <;> [omega; (simp only [List.length_cons]; omega)]
    · simp only [findIdxAux, ha, Bool.false_eq_true, if_false] at h
      have := ih (i + 1) j h
      constructor <;> [omega; (simp only [List.length_cons]; omega)]

/-- Helper: an empty scan means no line trims to the marker. -/
theorem findIdxAux_nil_iff (m : String) (xs : List String) (i : Nat) :
    findIdxAux m i xs = [] ↔ ∀ l ∈ xs, trimStr l ≠ m := by
  constructor
  · intro h
    revert h
    induction xs generalizing i with
    | nil => intro _ l hl; simp at hl
    | cons a tl ih =>
      intro h l hl
      by_cases ha : (trimStr a == m) = true
      · simp only [findIdxAux, ha, if_true] at h
        exact absurd h (by simp)
      · simp only [findIdxAux, ha, Bool.false_eq_true, if_false] at h
        rcases List.mem_cons.mp hl with hl | hl
        · subst hl
          simpa using ha
        · exact ih (i + 1) h l hl
  · intro h
    exact findIdxAux_eq_nil m xs h i

/-- Helper: decompositions of a singleton as an append. -/
theorem append_eq_singleton {xs ys : List Nat} {a : Nat} (h : xs ++ ys = [a]) :
    (xs = [] ∧ ys = [a]) ∨ (xs = [a] ∧ ys = []) := by
  cases xs with
  | nil => left; exact ⟨rfl, by simpa using h⟩
  | cons x tl =>
    right
    rw [List.cons_append, List.cons_eq_cons] at h
    rcases h with ⟨h1, h2⟩
    rcases List.append_eq_nil.mp h2 with ⟨h3, h4⟩
    subst h1; subst h3; subst h4
    exact ⟨rfl, rfl⟩

/-- Helper: a newline join of clean lines contains no carriage return. -/
theorem joinWith_no_cr :
    ∀ (ls : List String), (∀ l ∈ ls, cleanLine l) →
    ∀ c ∈ (joinWith "\n" ls).data, c ≠ '\r' := by
  intro ls
  induction ls with
  | nil => intro _ c hc; simp [joinWith, String.data] at hc
  | cons x tl ih =>
    intro h c hc
    cases tl with
    | nil => exact (h x (List.mem_cons_self x []) c hc).2
    | cons y tl2 =>
      rw [joinWith_newline_data] at hc
      rcases List.mem_append.mp hc with hc | hc
      · exact (h x (List.mem_cons_self x _) c hc).2
      · rcases List.mem_cons.mp hc with hc | hc
        · subst hc; decide
        · exact ih (fun l hl => h l (List.mem_cons_of_mem x hl)) c hc

/-- Helper: dropWhile is idempotent. -/
theorem dropWhile_idem {α : Type} (p : α → Bool) (l : List α) :
    (l.dropWhile p).dropWhile p = l.dropWhile p := by
  rcases hd : l.dropWhile p with _ | ⟨c, rest⟩
  · rfl
  · rw [List.dropWhile_cons, if_neg]
    intro hcon
    have := dropWhile_head_false' p l c rest hd
    rw [hcon] at this
    exact Bool.true_eq_false.mp this

/-- Helper: popping trailing blanks is idempotent. -/
theorem popTrailingBlanks_idem (l : List String) :
    popTrailingBlanks (popTrailingBlanks l) = popTrailingBlanks l := by
  unfold popTrailingBlanks
  rw [List.reverse_reverse, dropWhile_idem]

/-- Helper: indexing an append at the left length reads the right head. -/
theorem getD_append_self (B rest : List String) (d : String) :
    (B ++ rest).getD B.length d = rest.getD 0 d := by
  induction B with
  | nil => rfl
  | cons a tl ih => simpa using ih

/-- Helper: stripping a body made of marker-free prose lines, a blank
line, the start marker, a marker-free appendix block and the end marker
removes the appendix span, the adjacent blank line and trailing blank
lines, leaving exactly the prose. -/
theorem strip_reinserted (b64 : String → Option String)
    (jp : String → Option JsonValue) (rp : String) (n : Nat)
    (B A : List String)
    (hBclean : ∀ l ∈ B, cleanLine l)
    (hAclean : ∀ l ∈ A, cleanLine l)
    (hBm : ∀ l ∈ B, trimStr l ≠ stegoStartMarker ∧ trimStr l ≠ stegoEndMarker)
    (hAm : ∀ l ∈ A, trimStr l ≠ stegoStartMarker ∧ trimStr l ≠ stegoEndMarker) :
    (parseStegoCommentsAppendix b64 jp
      (joinWith "\n" (B ++ "" :: stegoStartMarker :: (A ++ [stegoEndMarker])))
      rp n).bodyWithoutComments =
    joinWith "\n" (popTrailingBlanks B) := by
  have hDclean : ∀ l ∈ B ++ "" :: stegoStartMarker :: (A ++ [stegoEndMarker]),
      cleanLine l := by
    intro l hl
    simp only [List.mem_append, List.mem_cons, List.mem_singleton,
      List.not_mem_nil, or_false] at hl
    rcases hl with hl | hl | hl | hl | hl
    · exact hBclean l hl
    · subst hl; intro c hc; simp at hc
    · subst hl; intro c hc; revert c hc; decide
    · exact hAclean l hl
    · subst hl; intro c hc; revert c hc; decide
  have hDne : B ++ "" :: stegoStartMarker :: (A ++ [stegoEndMarker]) ≠ [] := by
    simp
  have hsplit : splitLines (joinWith "\n"
      (B ++ "" :: stegoStartMarker :: (A ++ [stegoEndMarker]))) =
      B ++ "" :: stegoStartMarker :: (A ++ [stegoEndMarker]) :=
    splitLines_joinWith _ hDne hDclean
  have hcr : hasCRLF (joinWith "\n"
      (B ++ "" :: stegoStartMarker :: (A ++ [stegoEndMarker]))).data = false :=
    hasCRLF_false _ (joinWith_no_cr _ hDclean)
  have hfs : findTrimmedLineIndexes
      (B ++ "" :: stegoStartMarker :: (A ++ [stegoEndMarker])) stegoStartMarker =
      [B.length + 1] := by
    unfold findTrimmedLineIndexes
    rw [findIdxAux_append]
    rw [findIdxAux_eq_nil _ _ (fun l hl => (hBm l hl).1)]
    simp only [List.nil_append, findIdxAux,
      show (trimStr "" == stegoStartMarker) = false from by decide,
      show (trimStr stegoStartMarker == stegoStartMarker) = true from by decide,
      Bool.false_eq_true, if_false, if_true]
    rw [findIdxAux_append]
    rw [findIdxAux_eq_nil _ _ (fun l hl => (hAm l hl).1)]
    simp only [findIdxAux,
      show (trimStr stegoEndMarker == stegoStartMarker) = false from by decide,
      Bool.false_eq_true, if_false, List.nil_append]
    simp [Nat.add_zero]
  have hfe : findTrimmedLineIndexes
      (B ++ "" :: stegoStartMarker :: (A ++ [stegoEndMarker])) stegoEndMarker =
      [B.length + 2 + A.length] := by
    unfold findTrimmedLineIndexes
    rw [findIdxAux_append]
    rw [findIdxAux_eq_nil _ _ (fun l hl => (hBm l hl).2)]
    simp only [List.nil_append, findIdxAux,
      show (trimStr "" == stegoEndMarker) = false from by decide,
      show (trimStr stegoStartMarker == stegoEndMarker) = false from by decide,
      Bool.false_eq_true, if_false]
    rw [findIdxAux_append]
    rw [findIdxAux_eq_nil _ _ (fun l hl => (hAm l hl).2)]
    simp only [findIdxAux,
      show (trimStr stegoEndMarker == stegoEndMarker) = true from by decide,
      if_true, List.nil_append]
    have h2 : 0 + B.length + 1 + 1 + A.length = B.length + 2 + A.length := by omega
    rw [h2]
  simp only [parseStegoCommentsAppendix, hsplit, hcr, Bool.false_eq_true, if_false,
    hfs, hfe]
  rw [if_neg (by simp)]
  rw [if_neg (by simp)]
  simp only [List.headD_cons]
  rw [if_neg (by omega)]
  have hgd : (B ++ "" :: stegoStartMarker :: (A ++ [stegoEndMarker])).getD
      (B.length + 1 - 1) "" = "" := by
    have h1 : B.length + 1 - 1 = B.length := by omega
    rw [h1, getD_append_self]
    rfl
  rw [if_pos ⟨by omega, by rw [hgd]; decide⟩]
  have htake : (B ++ "" :: stegoStartMarker :: (A ++ [stegoEndMarker])).take
      (B.length + 1 - 1) = B := by
    have h1 : B.length + 1 - 1 = B.length := by omega
    rw [h1]
    exact List.take_left B _
  have hdrop : (B ++ "" :: stegoStartMarker :: (A ++ [stegoEndMarker])).drop
      (B.length + 2 + A.length + 1) = [] := by
    apply List.drop_eq_nil_of_le
    simp
    omega
  rw [htake, hdrop, List.append_nil]

/-- Helper: shifting the start index shifts every scan result. -/
theorem findIdxAux_shift (m : String) :
    ∀ (xs : List String) (k i : Nat),
    findIdxAux m (k + i) xs = (findIdxAux m k xs).map (fun j => j + i) := by
  intro xs
  induction xs with
  | nil => intro k i; rfl
  | cons a tl ih =>
    intro k i
    by_cases ha : (trimStr a == m) = true
    · simp only [findIdxAux, ha, if_true, List.map_cons]
      have : k + i + 1 = (k + 1) + i := by omega
      rw [this, ih (k + 1) i]
    · simp only [findIdxAux, ha, Bool.false_eq_true, if_false]
      have : k + i + 1 = (k + 1) + i := by omega
      rw [this, ih (k + 1) i]

/-- Helper: before the unique marker position no line trims to the marker. -/
theorem marker_free_take (m : String) (L : List String) (s k : Nat)
    (h : findTrimmedLineIndexes L m = [s]) (hk : k ≤ s) :
    ∀ l ∈ L.take k, trimStr l ≠ m := by
  have happ := findIdxAux_append m (L.take k) 0 (L.drop k)
  rw [List.take_append_drop k L] at happ
  unfold findTrimmedLineIndexes at h
  rw [h] at happ
  rcases append_eq_singleton happ.symm with ⟨h1, _⟩ | ⟨h1, _⟩
  · exact (findIdxAux_nil_iff m _ 0).mp h1
  · exfalso
    have hsmem : s ∈ findIdxAux m 0 (L.take k) := by rw [h1]; simp
    have hb := findIdxAux_mem_bounds m _ 0 s hsmem
    have hlen : (L.take k).length ≤ k := by
      simp [List.length_take]
    omega

/-- Helper: after the unique marker position no line trims to the marker. -/
theorem marker_free_drop (m : String) (L : List String) (s k : Nat)
    (h : findTrimmedLineIndexes L m = [s]) (hk : s < k) :
    ∀ l ∈ L.drop k, trimStr l ≠ m := by
  have happ := findIdxAux_append m (L.take k) 0 (L.drop k)
  rw [List.take_append_drop k L] at happ
  unfold findTrimmedLineIndexes at h
  rw [h] at happ
  rcases append_eq_singleton happ.symm with ⟨_, h2⟩ | ⟨_, h2⟩
  · exfalso
    have hsmem : s ∈ findIdxAux m (0 + (L.take k).length) (L.drop k) := by
      rw [h2]; simp
    have hb := findIdxAux_mem_bounds m _ _ s hsmem
    have hlen : k ≤ L.length → (L.take k).length = k := by
      intro hle; simp [List.length_take]; omega
    by_cases hkl : k ≤ L.length
    · rw [hlen hkl] at hb; omega
    · have : L.drop k = [] := by
        apply List.drop_eq_nil_of_le
        omega
      rw [this] at hsmem
      simp [findIdxAux] at hsmem
  · exact (findIdxAux_nil_iff m _ _).mp h2

/-- Helper: position of the end marker inside the suffix after the start marker. -/
theorem drop_end_marker_index (L : List String) (s e : Nat)
    (hs : findTrimmedLineIndexes L stegoStartMarker = [s])
    (he : findTrimmedLineIndexes L stegoEndMarker = [e]) (hlt : s < e) :
    findIdxAux stegoEndMarker 0 (L.drop (s + 1)) = [e - (s + 1)] := by
  have happ := findIdxAux_append stegoEndMarker (L.take (s + 1)) 0 (L.drop (s + 1))
  rw [List.take_append_drop (s + 1) L] at happ
  unfold findTrimmedLineIndexes at he
  rw [he] at happ
  have hsL : s < L.length := by
    have hsmem : s ∈ findIdxAux stegoStartMarker 0 L := by
      unfold findTrimmedLineIndexes at hs
      rw [hs]; simp
    have := findIdxAux_mem_bounds _ _ _ _ hsmem
    omega
  have hlen : (L.take (s + 1)).length = s + 1 ∨ (L.take (s + 1)).length = L.length := by
    simp [List.length_take]
    omega
  rcases append_eq_singleton happ.symm with ⟨_, h2⟩ | ⟨h1, _⟩
  · have hls : (L.take (s + 1)).length = s + 1 := by
      have hemem : e ∈ findIdxAux stegoEndMarker (0 + (L.take (s + 1)).length)
          (L.drop (s + 1)) := by rw [h2]; simp
      have hb := findIdxAux_mem_bounds _ _ _ _ hemem
      simp only [List.length_take]
      by_contra hcon
      have hd : L.drop (s + 1) = [] := by
        apply List.drop_eq_nil_of_le
        omega
      rw [hd] at hemem
      simp [findIdxAux] at hemem
    rw [hls] at h2
    have hmap := findIdxAux_shift stegoEndMarker (L.drop (s + 1)) 0 (s + 1)
    rw [show (0 : Nat) + (s + 1) = s + 1 from by omega] at hmap h2
    rw [hmap] at h2
    rcases hzero : findIdxAux stegoEndMarker 0 (L.drop (s + 1)) with _ | ⟨x, t⟩
    · rw [hzero] at h2
      simp at h2
    · rw [hzero] at h2
      simp only [List.map_cons, List.cons_eq_cons] at h2
      rcases h2 with ⟨hx, ht⟩
      cases t with
      | nil =>
        have hxe : x = e - (s + 1) := by omega
        rw [hxe]
      | cons y t2 => simp at ht
  · exfalso
    have hemem : e ∈ findIdxAux stegoEndMarker 0 (L.take (s + 1)) := by
      rw [h1]; simp
    have hb := findIdxAux_mem_bounds _ _ _ _ hemem
    have : (L.take (s + 1)).length ≤ s + 1 := by simp [List.length_take]
    omega

/-- Helper: popping trailing blanks keeps a subset of the lines. -/
theorem popTrailingBlanks_subset (l : List String) :
    ∀ x ∈ popTrailingBlanks l, x ∈ l := by
  intro x hx
  unfold popTrailingBlanks at hx
  rw [List.mem_reverse] at hx
  have hsub := List.dropWhile_sublist (l := l.reverse) (p := fun s => trimStr s == "")
  have := hsub.subset hx
  simpa using this

/-- C6: for every document given as clean lines with exactly one start
marker line at position s and one end marker line at position e after it,
stripping the comment appendix, then re-inserting the identical appendix
block (with its markers and one separating blank line) and stripping
again, reproduces the stripped prose body byte for byte, for any behavior
of the metadata decoding functions in either pass. -/
theorem comment_appendix_idempotent (b64 b64a : String → Option String)
    (jp jpa : String → Option JsonValue) (rp rpa : String) (n na : Nat)
    (L : List String) (s e : Nat)
    (hclean : ∀ l ∈ L, cleanLine l)
    (hs : findTrimmedLineIndexes L stegoStartMarker = [s])
    (he : findTrimmedLineIndexes L stegoEndMarker = [e])
    (hlt : s < e) :
    (parseStegoCommentsAppendix b64a jpa
      (joinWith "\n"
        (splitLines (parseStegoCommentsAppendix b64 jp (joinWith "\n" L) rp
            n).bodyWithoutComments ++
         "" :: stegoStartMarker ::
           (((L.drop (s + 1)).take (e - (s + 1))) ++ [stegoEndMarker])))
      rpa na).bodyWithoutComments =
    (parseStegoCommentsAppendix b64 jp (joinWith "\n" L) rp
      n).bodyWithoutComments := by
  have hLne : L ≠ [] := by
    intro hcon
    rw [hcon] at hs
    simp [findTrimmedLineIndexes, findIdxAux] at hs
  have hsplitL : splitLines (joinWith "\n" L) = L :=
    splitLines_joinWith L hLne hclean
  have hcrL : hasCRLF (joinWith "\n" L).data = false :=
    hasCRLF_false _ (joinWith_no_cr L hclean)
  have hR : (parseStegoCommentsAppendix b64 jp (joinWith "\n" L) rp
      n).bodyWithoutComments =
      joinWith "\n" (popTrailingBlanks
        (L.take (if s > 0 ∧ (trimStr (L.getD (s - 1) "") == "") = true then s - 1
          else s) ++ L.drop (e + 1))) := by
    simp only [parseStegoCommentsAppendix, hsplitL, hcrL, Bool.false_eq_true,
      if_false, hs, he]
    rw [if_neg (by simp), if_neg (by simp)]
    simp only [List.headD_cons]
    rw [if_neg (by omega)]
  rw [hR]
  generalize hg : (if s > 0 ∧ (trimStr (L.getD (s - 1) "") == "") = true then s - 1
    else s) = RS at *
  have hRS : RS ≤ s := by
    rw [← hg]
    split <;> omega
  have hKsub : ∀ x ∈ popTrailingBlanks (L.take RS ++ L.drop (e + 1)),
      x ∈ L.take RS ∨ x ∈ L.drop (e + 1) := by
    intro x hx
    have := popTrailingBlanks_subset _ x hx
    exact List.mem_append.mp this
  have hKm : ∀ x ∈ popTrailingBlanks (L.take RS ++ L.drop (e + 1)),
      trimStr x ≠ stegoStartMarker ∧ trimStr x ≠ stegoEndMarker := by
    intro x hx
    rcases hKsub x hx with hx2 | hx2
    · exact ⟨marker_free_take _ L s RS hs hRS x hx2,
        marker_free_take _ L e RS he (by omega) x hx2⟩
    · exact ⟨marker_free_drop _ L s (e + 1) hs (by omega) x hx2,
        marker_free_drop _ L e (e + 1) he (by omega) x hx2⟩
  have hKclean : ∀ x ∈ popTrailingBlanks (L.take RS ++ L.drop (e + 1)),
      cleanLine x := by
    intro x hx
    rcases hKsub x hx with hx2 | hx2
    · exact hclean x (List.mem_of_mem_take hx2)
    · exact hclean x (List.mem_of_mem_drop hx2)
  have hAm : ∀ l ∈ (L.drop (s + 1)).take (e - (s + 1)),
      trimStr l ≠ stegoStartMarker ∧ trimStr l ≠ stegoEndMarker := by
    intro l hl
    constructor
    · exact marker_free_drop _ L s (s + 1) hs (by omega) l
        (List.mem_of_mem_take hl)
    · have hidx := drop_end_marker_index L s e hs he hlt
      exact marker_free_take _ (L.drop (s + 1)) (e - (s + 1)) (e - (s + 1))
        hidx (Nat.le_refl _) l hl
  have hAclean : ∀ l ∈ (L.drop (s + 1)).take (e - (s + 1)), cleanLine l := by
    intro l hl
    exact hclean l (List.mem_of_mem_drop (List.mem_of_mem_take hl))
  rcases hK : popTrailingBlanks (L.take RS ++ L.drop (e + 1)) with _ | ⟨k0, krest⟩
  · rw [show joinWith "\n" ([] : List String) = "" from rfl]
    rw [show splitLines "" = [""] from rfl]
    rw [strip_reinserted b64a jpa rpa na [""] _
      (by intro l hl; simp at hl; subst hl; intro c hc; simp at hc)
      hAclean
      (by intro l hl; simp at hl; subst hl; decide)
      hAm]
    rfl
  · rw [← hK]
    have hKne : popTrailingBlanks (L.take RS ++ L.drop (e + 1)) ≠ [] := by
      rw [hK]; simp
    rw [splitLines_joinWith _ hKne hKclean]
    rw [strip_reinserted b64a jpa rpa na _ _ hKclean hAclean hKm hAm]
    rw [popTrailingBlanks_idem]

/-- Witness for C6: the round trip evaluated on a concrete five-line
document with one thread between the markers. -/
theorem comment_appendix_idempotent_witness :
    (parseStegoCommentsAppendix (fun _ => none) (fun _ => none)
      (joinWith "\n"
        (splitLines (parseStegoCommentsAppendix (fun _ => none) (fun _ => none)
            (joinWith "\n" ["Prose one.", "", "<!-- stego-comments:start -->",
              "### CMT-0001", "<!-- stego-comments:end -->"]) "p.md"
            1).bodyWithoutComments ++
         "" :: stegoStartMarker ::
           (((["Prose one.", "", "<!-- stego-comments:start -->",
              "### CMT-0001", "<!-- stego-comments:end -->"].drop (2 + 1)).take
                (4 - (2 + 1))) ++ [stegoEndMarker])))
      "p.md" 1).bodyWithoutComments =
    (parseStegoCommentsAppendix (fun _ => none) (fun _ => none)
      (joinWith "\n" ["Prose one.", "", "<!-- stego-comments:start -->",
        "### CMT-0001", "<!-- stego-comments:end -->"]) "p.md"
      1).bodyWithoutComments :=
  comment_appendix_idempotent (fun _ => none) (fun _ => none)
    (fun _ => none) (fun _ => none) "p.md" "p.md" 1 1
    ["Prose one.", "", "<!-- stego-comments:start -->",
      "### CMT-0001", "<!-- stego-comments:end -->"] 2 4
    (by intro l hl; unfold cleanLine; fin_cases hl <;> decide)
    (by decide) (by decide) (by decide)


theorem specDocFlags_congr (entry : ChapterEntry) :
    ∀ (levels : List CompileStructureLevel) (p q : String → Option String)
      (pc : Bool),
    (∀ l ∈ levels, p l.key = q l.key) →
    specDocFlags entry p levels pc = specDocFlags entry q levels pc := by
  intro levels
  induction levels with
  | nil => intro p q pc h; rfl
  | cons level rest ih =>
    intro p q pc h
    simp only [specDocFlags]
    rw [h level (List.mem_cons_self level rest)]
    rcases lookupRecord entry.groupValues level.key with _ | v
    · simp only []
      rw [ih p q _ (fun l hl => h l (List.mem_cons_of_mem level hl))]
    · simp only []
      rw [ih p q _ (fun l hl => h l (List.mem_cons_of_mem level hl))]

theorem processLevels_flags (entry : ChapterEntry) (ci : Nat) :
    ∀ (levels : List CompileStructureLevel) (li : Nat) (st : LevelPassState)
      (ib lc : Bool),
    (levels.map (fun l => l.key)).Nodup →
    (processLevels entry ci levels li st ib lc).changedFlags =
      (specDocFlags entry st.prevValues levels (decide (li > 0) && lc)).map Prod.fst ∧
    (processLevels entry ci levels li st ib lc).levelValues =
      (specDocFlags entry st.prevValues levels (decide (li > 0) && lc)).map Prod.snd := by
  intro levels
  induction levels with
  | nil => intro li st ib lc _; exact ⟨rfl, rfl⟩
  | cons level rest ih =>
    intro li st ib lc hnodup
    rw [List.map_cons, List.nodup_cons] at hnodup
    obtain ⟨hnotin, hnodup2⟩ := hnodup
    have hsucc : decide (li + 1 > 0) = true := by simp
    have hagree : ∀ l ∈ rest,
        (if (l.key == level.key) = true then
            (match lookupRecord entry.groupValues level.key with
              | some v => some v
              | none => st.prevValues level.key)
          else st.prevValues l.key) = st.prevValues l.key := by
      intro l hl
      have hne : (l.key == level.key) = false := by
        refine beq_eq_false_iff_ne.mpr ?_
        intro hcon
        exact hnotin (hcon ▸ List.mem_map_of_mem (fun l => l.key) hl)
      simp [hne]
    simp only [processLevels, specDocFlags]
    split <;>
      (refine ⟨?_, ?_⟩ <;>
        · simp only [List.map_cons]
          refine congrArg₂ List.cons rfl ?_
          first
          | rw [(ih (li + 1) _ _ _ hnodup2).1]
          | rw [(ih (li + 1) _ _ _ hnodup2).2]
          rw [hsucc, Bool.true_and]
          first
          | exact congrArg (List.map Prod.fst)
              (specDocFlags_congr entry rest _ st.prevValues _ hagree)
          | exact congrArg (List.map Prod.snd)
              (specDocFlags_congr entry rest _ st.prevValues _ hagree))

theorem processLevels_state (entry : ChapterEntry) (ci : Nat) :
    ∀ (levels : List CompileStructureLevel) (li : Nat) (st : LevelPassState)
      (ib lc : Bool),
    (levels.map (fun l => l.key)).Nodup →
    ∀ k, (processLevels entry ci levels li st ib lc).state.prevValues k =
      if (levels.map (fun l => l.key)).contains k then
        specEffStep entry st.prevValues k
      else st.prevValues k := by
  intro levels
  induction levels with
  | nil =>
    intro li st ib lc _ k
    simp [processLevels]
  | cons level rest ih =>
    intro li st ib lc hnodup k
    rw [List.map_cons, List.nodup_cons] at hnodup
    obtain ⟨hnotin, hnodup2⟩ := hnodup
    simp only [processLevels]
    split <;>
      · rw [ih (li + 1) _ _ _ hnodup2 k]
        rcases hk : (k == level.key) with _ | _
        · simp only [List.map_cons, List.contains_cons, hk, Bool.false_or,
            Bool.false_eq_true, if_false]
          rcases hrc : ((rest.map (fun l => l.key)).contains k) with _ | _
          · simp only [hrc, Bool.false_eq_true, if_false]
          · simp only [hrc, eq_self_iff_true, if_true, specEffStep]
            rcases lookupRecord entry.groupValues k with _ | v
            · simp only [hk, Bool.false_eq_true, if_false]
            · rfl
        · have hkeq : k = level.key := eq_of_beq hk
          have hrc : ((rest.map (fun l => l.key)).contains k) = false := by
            cases hc : ((rest.map (fun l => l.key)).contains k) with
            | false => rfl
            | true => exact absurd (hkeq ▸ List.elem_iff.mp hc) hnotin
          simp only [List.map_cons, List.contains_cons, hk, Bool.true_or, hrc,
            Bool.false_eq_true, if_false, eq_self_iff_true, if_true, specEffStep]
          rw [hkeq]

theorem chaptersLoop_spec (levels : List CompileStructureLevel) (ehl : Nat) :
    ∀ (chapters : List ChapterEntry) (ci : Nat) (st : LevelPassState)
      (p : String → Option String),
    (levels.map (fun l => l.key)).Nodup →
    (∀ l ∈ levels, st.prevValues l.key = p l.key) →
    (chaptersLoop levels ehl chapters ci st).map
        (fun o => (o.changedFlags, o.levelValues)) =
      (specDocSeq levels p chapters).map
        (fun fl => (fl.map Prod.fst, fl.map Prod.snd)) := by
  intro chapters
  induction chapters with
  | nil => intro ci st p _ _; rfl
  | cons e es ihc =>
    intro ci st p hnodup hag
    simp only [chaptersLoop, chapterChunk, specDocSeq, List.map_cons]
    refine congrArg₂ List.cons ?_ ?_
    · have hd : (decide (0 > 0) && false) = false := rfl
      obtain ⟨h1, h2⟩ := processLevels_flags e ci levels 0 st false false hnodup
      rw [hd] at h1 h2
      rw [specDocFlags_congr e levels st.prevValues p false hag] at h1 h2
      exact congrArg₂ Prod.mk h1 h2
    · have hag2 : ∀ l ∈ levels,
          (processLevels e ci levels 0 st false false).state.prevValues l.key =
            specEffStep e p l.key := by
        intro l hl
        rw [processLevels_state e ci levels 0 st false false hnodup l.key]
        have hcont : ((levels.map (fun l => l.key)).contains l.key) = true :=
          List.elem_iff.mpr (List.mem_map_of_mem (fun l => l.key) hl)
        rw [hcont, if_pos rfl]
        simp only [specEffStep]
        rcases lookupRecord e.groupValues l.key with _ | v
        · exact hag l hl
        · rfl
      exact ihc (ci + 1) _ (specEffStep e p) hnodup hag2

/-- C1: in the assembly pass, for every ordered document list and every
grouping-level list with distinct level keys, each document's effective
value for a level is its own header field when present, else the previous
document's effective value, and a level counts as changed exactly when an
earlier level changed at that document or its effective value differs from
the previous document's effective value (the per-document flags and
values refine the spec model specDocFlags/specDocSeq); in particular, for
three documents where only the first and third set a chapter field, the
second inherits the first's chapter with changed flag false, the first is
changed, and the third is changed exactly when its value differs. -/
theorem grouping_inheritance_refines_spec :
    (∀ (levels : List CompileStructureLevel) (chapters : List ChapterEntry),
      (levels.map (fun l => l.key)).Nodup →
      (buildManuscriptObs levels chapters).map
          (fun o => (o.changedFlags, o.levelValues)) =
        (specDocSeq levels (fun _ => none) chapters).map
          (fun fl => (fl.map Prod.fst, fl.map Prod.snd))) ∧
    (∀ (v1 v3 : String),
      (buildManuscriptObs [⟨"chapter", "Chapter", none, false, "{label}", "none"⟩]
          [⟨"a.md", "a", some 100, "draft", [("chapter", v1)], [], "A"⟩,
           ⟨"b.md", "b", some 200, "draft", [], [], "B"⟩,
           ⟨"c.md", "c", some 300, "draft", [("chapter", v3)], [], "C"⟩]).map
          (fun o => (o.changedFlags, o.levelValues)) =
        [([true], [some v1]), ([false], [some v1]),
         ([decide (some v3 ≠ some v1)], [some v3])]) := by
  constructor
  · intro levels chapters hnodup
    simp only [buildManuscriptObs]
    exact chaptersLoop_spec levels (min 6 (2 + levels.length)) chapters 0
      initialLevelPassState (fun _ => none) hnodup (fun l hl => rfl)
  · intro v1 v3
    simp only [buildManuscriptObs]
    rw [chaptersLoop_spec _ _ _ 0 initialLevelPassState (fun _ => none)
      (by decide) (fun l hl => rfl)]
    simp [specDocSeq, specDocFlags, specEffStep, lookupRecord, List.find?]

/-- Witness for C1: a concrete single-level, single-document run satisfies
the distinct-keys hypothesis and the refinement equation. -/
theorem grouping_inheritance_refines_spec_witness :
    ((([⟨"chapter", "Chapter", none, false, "{label}", "none"⟩] :
        List CompileStructureLevel).map (fun l => l.key)).Nodup) ∧
    (buildManuscriptObs [⟨"chapter", "Chapter", none, false, "{label}", "none"⟩]
        [⟨"a.md", "a", some 100, "draft", [("chapter", "one")], [], "A"⟩]).map
        (fun o => (o.changedFlags, o.levelValues)) =
      (specDocSeq [⟨"chapter", "Chapter", none, false, "{label}", "none"⟩]
          (fun _ => none)
          [⟨"a.md", "a", some 100, "draft", [("chapter", "one")], [], "A"⟩]).map
        (fun fl => (fl.map Prod.fst, fl.map Prod.snd)) :=
  ⟨by decide, grouping_inheritance_refines_spec.1 _ _ (by decide)⟩


theorem breakEnabledChange_of_skip (level : CompileStructureLevel)
    (ch : Bool) (v : Option String) (h : (!ch || isFalsyStr v) = true) :
    breakEnabledChange (level, (ch, v)) = false := by
  rcases ch <;> rcases hf : isFalsyStr v <;> simp_all [breakEnabledChange]

theorem breakEnabledChange_of_nonskip (level : CompileStructureLevel)
    (ch : Bool) (v : Option String) (h : ¬((!ch || isFalsyStr v) = true)) :
    breakEnabledChange (level, (ch, v)) = (level.pageBreak == "between-groups") := by
  rcases ch <;> rcases hf : isFalsyStr v <;> simp_all [breakEnabledChange]

theorem processLevels_insertedBreak (entry : ChapterEntry) (ci : Nat) :
    ∀ (levels : List CompileStructureLevel) (li : Nat) (st : LevelPassState)
      (ib lc : Bool),
    (processLevels entry ci levels li st ib lc).insertedBreak =
      (ib || (decide (ci > 0) &&
        ((levels.zip (((processLevels entry ci levels li st ib lc).changedFlags).zip
            ((processLevels entry ci levels li st ib lc).levelValues))).any
          breakEnabledChange))) := by
  intro levels
  induction levels with
  | nil => intro li st ib lc; simp [processLevels]
  | cons level rest ih =>
    intro li st ib lc
    simp only [processLevels]
    split
    · rename_i hbr
      dsimp only
      rw [ih (li + 1) _ ib _]
      simp only [List.zip_cons_cons, List.any_cons]
      rw [breakEnabledChange_of_skip level _ _ hbr, Bool.false_or]
    · rename_i hbr
      dsimp only
      by_cases he : level.pageBreak = "between-groups"
      · by_cases hci : ci > 0
        · cases ib with
          | false =>
            rw [if_pos ⟨he, hci, rfl⟩, ih (li + 1) _ true _]
            simp only [List.zip_cons_cons, List.any_cons]
            rw [breakEnabledChange_of_nonskip level _ _ hbr]
            simp [he, hci]
          | true =>
            rw [if_neg (fun hc => absurd hc.2.2 (by decide)),
              ih (li + 1) _ true _]
            simp
        · rw [if_neg (fun hc => hci hc.2.1), ih (li + 1) _ ib _]
          simp [hci]
      · rw [if_neg (fun hc => he hc.1), ih (li + 1) _ ib _]
        simp only [List.zip_cons_cons, List.any_cons]
        rw [breakEnabledChange_of_nonskip level _ _ hbr,
          beq_eq_false_iff_ne.mpr he, Bool.false_or]

theorem hashline_ne_newpage (n : Nat) (hn : n ≠ 0) (s t : String) :
    (String.mk (List.replicate n '#') ++ s ++ t) ≠ "\\newpage" := by
  refine str_ne_of_data_head ?_
  rcases n with _ | m
  · exact absurd rfl hn
  · simp [String.data_append, List.replicate_succ]

theorem processLevels_newpage_count (entry : ChapterEntry) (ci : Nat) :
    ∀ (levels : List CompileStructureLevel) (li : Nat) (st : LevelPassState)
      (ib lc : Bool),
    ((processLevels entry ci levels li st ib lc).lines.count "\\newpage") =
      (if ((processLevels entry ci levels li st ib lc).insertedBreak && !ib) = true
        then 1 else 0) := by
  intro levels
  induction levels with
  | nil => intro li st ib lc; simp [processLevels]
  | cons level rest ih =>
    intro li st ib lc
    simp only [processLevels]
    split
    · rename_i hbr
      dsimp only
      exact ih (li + 1) _ ib _
    · rename_i hbr
      dsimp only
      have hl2 : ∀ hd : List (Nat × String),
          ((if (level.injectHeading = true) then
              (hd,
               [String.mk (List.replicate (min 6 (2 + li)) '#') ++ " " ++
                  formatCompileStructureHeading level
                    ((match lookupRecord entry.groupValues level.key with
                      | some v => some v
                      | none => st.prevValues level.key).getD "")
                    (match (match level.titleKey with
                        | some tk =>
                          if tk = "" then none
                          else toScalarMetadataString (lookupMetadata entry.metadata tk)
                        | none => none) with
                      | some t => some t
                      | none => st.prevTitles level.key), ""])
            else ([], [])).2.count "\\newpage") = 0 := by
        intro hd
        have hmin : min 6 (2 + li) ≠ 0 := by omega
        rcases hinj : level.injectHeading with _ | _
        · simp [hinj]
        · simp only [hinj, eq_self_iff_true, if_true]
          rw [List.count_cons, List.count_cons, List.count_nil,
            beq_eq_false_iff_ne.mpr (hashline_ne_newpage _ hmin _ _)]
          simp
      by_cases hdb : (level.pageBreak = "between-groups" ∧ ci > 0 ∧ ib = false)
      · obtain ⟨he, hci, hib⟩ := hdb
        subst hib
        have hdbp : level.pageBreak = "between-groups" ∧ ci > 0 ∧ false = false :=
          ⟨he, hci, rfl⟩
        rw [if_pos hdbp, if_pos hdbp]
        rw [List.count_append, List.count_append, hl2, ih (li + 1) _ true _,
          processLevels_insertedBreak entry ci rest (li + 1) _ true _]
        simp [show List.count "\\newpage" ["\\newpage", ""] = 1 from by decide]
      · rw [if_neg hdb, if_neg hdb]
        rw [List.count_append, List.count_append, hl2, ih (li + 1) _ ib _]
        simp

theorem string_foldl_append_shift :
    ∀ (l : List String) (a : String),
    List.foldl (fun r s => r ++ s) a l =
      a ++ List.foldl (fun r s => r ++ s) "" l := by
  intro l
  induction l with
  | nil => intro a; simp
  | cons b bs ih =>
    intro a
    rw [List.foldl_cons, List.foldl_cons, ih (a ++ b), ih (("" : String) ++ b)]
    rw [show ("" : String) ++ b = b from rfl, String.append_assoc]

theorem tocLineFor_ne_newpage (e : Nat × String) : tocLineFor e ≠ "\\newpage" := by
  refine str_ne_of_data_head ?_
  rcases e with ⟨n, t⟩
  rcases n with _ | m
  · simp [tocLineFor, String.data_append, String.join]
  · have hj : String.join (List.replicate (m + 1) "  ") =
        "  " ++ List.foldl (fun r s => r ++ s) "" (List.replicate m "  ") := by
      rw [List.replicate_succ]
      show List.foldl (fun r s => r ++ s) (("" : String) ++ "  ")
        (List.replicate m "  ") = _
      rw [string_foldl_append_shift, show ("" : String) ++ "  " = "  " from rfl]
    simp [tocLineFor, hj, String.data_append]

theorem chapterChunk_newpage_count (levels : List CompileStructureLevel)
    (ehl : Nat) (entry : ChapterEntry) (ci : Nat) (st : LevelPassState)
    (hehl : ehl ≠ 0) (hbody : trimStr entry.body ≠ "\\newpage") :
    ((chapterChunk levels ehl entry ci st).1.lines.count "\\newpage") =
      (if (chapterChunk levels ehl entry ci st).1.insertedBreak = true
        then 1 else 0) := by
  have h1 : (hashesStr ehl ++ " " ++ entry.title) ≠ "\\newpage" := by
    simp only [hashesStr]
    exact hashline_ne_newpage ehl hehl " " entry.title
  have h2 : ("<!-- source: " ++ entry.relativePath ++ " | order: " ++
      orderToString entry.order ++ " | status: " ++ entry.status ++ " -->") ≠
      "\\newpage" := by
    refine str_ne_of_data_head ?_
    simp [String.data_append]
  simp only [chapterChunk]
  rw [List.count_append, processLevels_newpage_count]
  rw [List.count_cons, List.count_cons, List.count_cons, List.count_cons,
    List.count_cons, List.count_cons, List.count_nil,
    beq_eq_false_iff_ne.mpr h1, beq_eq_false_iff_ne.mpr h2,
    beq_eq_false_iff_ne.mpr hbody]
  simp

theorem chaptersLoop_newpage_count (levels : List CompileStructureLevel)
    (ehl : Nat) (hehl : ehl ≠ 0) :
    ∀ (chapters : List ChapterEntry) (ci : Nat) (st : LevelPassState),
    (∀ e ∈ chapters, trimStr e.body ≠ "\\newpage") →
    ((((chaptersLoop levels ehl chapters ci st).map
        (fun o => o.lines)).flatten.count "\\newpage") =
      ((chaptersLoop levels ehl chapters ci st).countP
        (fun o => o.insertedBreak))) := by
  intro chapters
  induction chapters with
  | nil => intro ci st _; rfl
  | cons e es ihc =>
    intro ci st hb
    simp only [chaptersLoop, List.map_cons, List.flatten_cons, List.countP_cons]
    rw [List.count_append,
      chapterChunk_newpage_count levels ehl e ci st hehl
        (hb e (List.mem_cons_self e es)),
      ihc (ci + 1) _ (fun x hx => hb x (List.mem_cons_of_mem e hx))]
    rcases hins : (chapterChunk levels ehl e ci st).1.insertedBreak with _ | _
    · simp [hins]
    · simp [hins]
      omega

theorem count_ite_nil (c : Prop) (inst : Decidable c) (L : List String)
    (h : List.count "\\newpage" L = 0) :
    (List.count "\\newpage" (@ite _ c inst L [])) = 0 := by
  split
  · exact h
  · rfl

theorem count_single_zero (x : String) (hx : x ≠ "\\newpage") :
    List.count "\\newpage" [x] = 0 := by
  rw [List.count_cons, List.count_nil, beq_eq_false_iff_ne.mpr hx]
  simp

theorem count_pair_zero (x y : String) (hx : x ≠ "\\newpage")
    (hy : y ≠ "\\newpage") : List.count "\\newpage" [x, y] = 0 := by
  rw [List.count_cons, List.count_cons, List.count_nil,
    beq_eq_false_iff_ne.mpr hx, beq_eq_false_iff_ne.mpr hy]
  simp

theorem count_quad_zero (x y z w : String) (hx : x ≠ "\\newpage")
    (hy : y ≠ "\\newpage") (hz : z ≠ "\\newpage") (hw : w ≠ "\\newpage") :
    List.count "\\newpage" [x, y, z, w] = 0 := by
  rw [List.count_cons, List.count_cons, List.count_cons, List.count_cons,
    List.count_nil, beq_eq_false_iff_ne.mpr hx, beq_eq_false_iff_ne.mpr hy,
    beq_eq_false_iff_ne.mpr hz, beq_eq_false_iff_ne.mpr hw]
  simp

theorem preamble_newpage_count (g title subtitle author : String)
    (levels : List CompileStructureLevel) :
    ((["<!-- generated: " ++ g ++ " -->", "", "# " ++ title, ""] ++
      (if subtitle ≠ "" then ["_" ++ subtitle ++ "_", ""] else []) ++
      (if author ≠ "" then ["Author: " ++ author, ""] else []) ++
      ["Generated: " ++ g, "", "## Table of Contents", ""] ++
      (if levels.isEmpty then
        ["- [Manuscript](#" ++ slugify "Manuscript" ++ ")"] else []) ++
      [""]).count "\\newpage") = 0 := by
  have h0 : ("" : String) ≠ "\\newpage" := by decide
  rw [List.count_append, List.count_append, List.count_append,
    List.count_append, List.count_append]
  rw [count_quad_zero _ _ _ _
      (str_ne_of_data_head (by simp [String.data_append])) h0
      (str_ne_of_data_head (by simp [String.data_append])) h0,
    count_ite_nil _ _ _ (count_pair_zero _ _
      (str_ne_of_data_head (by simp [String.data_append])) h0),
    count_ite_nil _ _ _ (count_pair_zero _ _
      (str_ne_of_data_head (by simp [String.data_append])) h0),
    count_quad_zero _ _ _ _
      (str_ne_of_data_head (by simp [String.data_append])) h0
      (by decide) h0,
    count_ite_nil _ _ _ (count_single_zero _
      (str_ne_of_data_head (by simp [String.data_append]))),
    count_single_zero _ h0]

theorem count_take_drop (a : String) (n : Nat) (l : List String) :
    (l.take n).count a + (l.drop n).count a = l.count a := by
  rw [← List.count_append, List.take_append_drop]

theorem buildManuscriptLines_newpage_count (g title subtitle author : String)
    (levels : List CompileStructureLevel) (chapters : List ChapterEntry)
    (hb : ∀ e ∈ chapters, trimStr e.body ≠ "\\newpage") :
    ((buildManuscriptLines g title subtitle author levels chapters).count
        "\\newpage") =
      ((buildManuscriptObs levels chapters).countP (fun o => o.insertedBreak)) := by
  have hehl : min 6 (2 + levels.length) ≠ 0 := by
    simp [Nat.min_eq_zero_iff]
  have htoc : ∀ (T : List (Nat × String)),
      (T.map tocLineFor).count "\\newpage" = 0 := by
    intro T
    rw [List.count_eq_zero]
    intro hmem
    rcases List.mem_map.mp hmem with ⟨e, he, heq⟩
    exact tocLineFor_ne_newpage e heq
  have hflat := chaptersLoop_newpage_count levels (min 6 (2 + levels.length))
    hehl chapters 0 initialLevelPassState hb
  have hpre := preamble_newpage_count g title subtitle author levels
  simp only [buildManuscriptLines, buildManuscriptObs] at *
  split
  · split
    · rename_i tocStart hfound
      rw [List.count_append, List.count_append, htoc, Nat.add_zero,
        count_take_drop, List.count_append, hpre, Nat.zero_add, hflat]
    · rw [List.count_append, hpre, Nat.zero_add, hflat]
  · rw [List.count_append, hpre, Nat.zero_add, hflat]

theorem chaptersLoop_insertedBreak_idx (levels : List CompileStructureLevel)
    (ehl : Nat) :
    ∀ (chapters : List ChapterEntry) (ci : Nat) (st : LevelPassState)
      (i : Nat) (hi : i < (chaptersLoop levels ehl chapters ci st).length),
    ((chaptersLoop levels ehl chapters ci st).get ⟨i, hi⟩).insertedBreak =
      (decide (ci + i > 0) &&
        ((levels.zip
            ((((chaptersLoop levels ehl chapters ci st).get ⟨i, hi⟩).changedFlags).zip
              (((chaptersLoop levels ehl chapters ci st).get ⟨i, hi⟩).levelValues))).any
          breakEnabledChange)) := by
  intro chapters
  induction chapters with
  | nil => intro ci st i hi; exact absurd hi (by simp [chaptersLoop])
  | cons e es ihc =>
    intro ci st i hi
    rcases i with _ | j
    · simp only [chaptersLoop, List.get_cons_zero, chapterChunk]
      rw [processLevels_insertedBreak]
      simp
    · simp only [chaptersLoop, List.get_cons_succ]
      rw [ihc (ci + 1) _ j _]
      have harith : ci + 1 + j = ci + (j + 1) := by omega
      rw [harith]

theorem chaptersLoop_count_le_one (levels : List CompileStructureLevel)
    (ehl : Nat) (hehl : ehl ≠ 0) :
    ∀ (chapters : List ChapterEntry) (ci : Nat) (st : LevelPassState),
    (∀ e ∈ chapters, trimStr e.body ≠ "\\newpage") →
    ∀ o ∈ chaptersLoop levels ehl chapters ci st,
      o.lines.count "\\newpage" ≤ 1 := by
  intro chapters
  induction chapters with
  | nil =>
    intro ci st _ o ho
    exact absurd ho (by simp [chaptersLoop])
  | cons e es ihc =>
    intro ci st hb o ho
    simp only [chaptersLoop] at ho
    rcases List.mem_cons.mp ho with hh | ht
    · subst hh
      rw [chapterChunk_newpage_count levels ehl e ci st hehl
        (hb e (List.mem_cons_self e es))]
      split <;> omega
    · exact ihc (ci + 1) _ (fun x hx => hb x (List.mem_cons_of_mem e hx)) o ht

/-- C2 (amended): in every compile run whose chapter bodies are not
themselves a page-break marker line, each source document contributes at
most one page-break marker to the output even when multiple nested levels
change at it simultaneously; a document's break is inserted exactly when
it is not the first document and some level with between-groups page
breaks enabled changed at it with a truthy effective value; and the
compiled output contains exactly as many page-break markers as there are
documents with an inserted break. -/
theorem page_break_once_per_document (g title subtitle author : String)
    (levels : List CompileStructureLevel) (chapters : List ChapterEntry)
    (hb : ∀ e ∈ chapters, trimStr e.body ≠ "\\newpage") :
    (∀ o ∈ buildManuscriptObs levels chapters,
      o.lines.count "\\newpage" ≤ 1) ∧
    (∀ (i : Nat) (hi : i < (buildManuscriptObs levels chapters).length),
      ((buildManuscriptObs levels chapters).get ⟨i, hi⟩).insertedBreak =
        (decide (i > 0) &&
          ((levels.zip
              ((((buildManuscriptObs levels chapters).get ⟨i, hi⟩).changedFlags).zip
                (((buildManuscriptObs levels chapters).get ⟨i, hi⟩).levelValues))).any
            breakEnabledChange))) ∧
    ((buildManuscriptLines g title subtitle author levels chapters).count
        "\\newpage") =
      ((buildManuscriptObs levels chapters).countP (fun o => o.insertedBreak)) := by
  have hehl : min 6 (2 + levels.length) ≠ 0 := by
    simp [Nat.min_eq_zero_iff]
  refine ⟨?_, ?_, ?_⟩
  · intro o ho
    simp only [buildManuscriptObs] at ho
    exact chaptersLoop_count_le_one levels (min 6 (2 + levels.length)) hehl
      chapters 0 initialLevelPassState hb o ho
  · intro i hi
    simp only [buildManuscriptObs] at hi ⊢
    rw [chaptersLoop_insertedBreak_idx levels (min 6 (2 + levels.length))
      chapters 0 initialLevelPassState i hi, Nat.zero_add]
  · exact buildManuscriptLines_newpage_count g title subtitle author levels
      chapters hb

/-- Witness for C2: a two-document run with a between-groups level whose
value changes at the second document satisfies the body hypothesis, and
its compiled output has exactly as many page-break markers as documents
with an inserted break. -/
theorem page_break_once_per_document_witness :
    (∀ e ∈ [(⟨"a.md", "a", some 100, "draft", [("chapter", "1")], [], "Body A"⟩ :
        ChapterEntry),
       ⟨"b.md", "b", some 200, "draft", [("chapter", "2")], [], "Body B"⟩],
      trimStr e.body ≠ "\\newpage") ∧
    ((buildManuscriptLines "now" "T" "" ""
        [⟨"chapter", "Chapter", none, false, "{label} {value}: {title}",
          "between-groups"⟩]
        [⟨"a.md", "a", some 100, "draft", [("chapter", "1")], [], "Body A"⟩,
         ⟨"b.md", "b", some 200, "draft", [("chapter", "2")], [], "Body B"⟩]).count
        "\\newpage") =
      ((buildManuscriptObs
          [⟨"chapter", "Chapter", none, false, "{label} {value}: {title}",
            "between-groups"⟩]
          [⟨"a.md", "a", some 100, "draft", [("chapter", "1")], [], "Body A"⟩,
           ⟨"b.md", "b", some 200, "draft", [("chapter", "2")], [], "Body B"⟩]).countP
        (fun o => o.insertedBreak)) :=
  ⟨by decide,
   (page_break_once_per_document "now" "T" "" "" _ _ (by decide)).2.2⟩

end Stego
